import Mathlib

/-!
# aef: arguments, environment, file

A shallow embedding of `aef.go`.  `Load` fills a struct from three layers in
turn: the command line (`loadCommandlineFlags`), the process environment
(`loadEnviron`) and a JSON file (`loadFile`).  The three layers share one
`map[string]bool` recording which names have been set.

Modelling choices.

* The struct behind `ss` is a list of `Slot`s: the static description of a
  field (identifier, tags, kind, whether it is exported) together with the value
  it currently holds.
* `reflect.Value.SetBool`, `SetInt`, ... panic when the field is not exported
  or its kind is not one they accept; the setters below return `none` for that.
  The flags of `loadCommandlineFlags` write through a raw pointer and are not
  concerned.
* Library functions whose definition is outside the repository
  (`strings.ToLower`, `strconv.ParseInt`, `json.Unmarshal`, the value parsers of
  package `flag`, ...) are the fields of `Lib`; the process environment, the
  file system and the tokenised command line are the fields of `World`.
* `setMap` only ever receives the value `true`, so it is modelled by the list
  of its keys (without repetition); `len(setMap)` is the length of that list.
* A call returns an `Outcome` next to the memory it leaves behind: `nil`, an
  error, a panic, or the end of the process (`flag.Parse` exits on a malformed
  command line).
-/

namespace Aef

/-! ## Data model -/

/-- The value of `reflect.Kind` for a field.  `bytes` stands for a slice whose
elements have kind uint8; `other` for every remaining kind (complex numbers,
arrays, channels, functions, interfaces, maps, pointers, other slices, structs,
raw pointers), on which every setter used by the code panics. -/
inductive Kind
  | bool | string
  | int | int8 | int16 | int32 | int64
  | uint | uint8 | uint16 | uint32 | uint64 | uintptr
  | float32 | float64
  | bytes
  | other
  deriving DecidableEq, Repr

/-- A float64, as its IEEE-754 bit pattern.  The code only moves floats around. -/
structure Float64 where
  bits : Nat
  deriving DecidableEq, Repr

/-- The value held by a field. -/
inductive Val
  | bool (b : Bool)
  | int (i : Int)
  | uint (n : Nat)
  | float (f : Float64)
  | str (s : String)
  | bytes (b : List Nat)
  | other (id : Nat)
  deriving DecidableEq, Repr

/-- A dynamic value stored in an `interface{}`, as far as the type switch of
`loadFile` tells values apart.  `array` and `object` are `[]interface{}` and
`map[string]interface{}`. -/
inductive Iface
  | null
  | bool (b : Bool)
  | int (i : Int)
  | int64 (i : Int)
  | uint (n : Nat)
  | uint64 (n : Nat)
  | float64 (f : Float64)
  | bytes (b : List Nat)
  | string (s : String)
  | array
  | object
  deriving DecidableEq, Repr

/-- The dynamic types `json.Unmarshal` stores in a `map[string]interface{}`. -/
def Iface.fromJSON : Iface → Bool
  | .null | .bool _ | .float64 _ | .string _ | .array | .object => true
  | _ => false

/-- The struct tag of a field: `Tag.Get` of the three keys the code reads
(the empty string when the key is absent). -/
structure Tag where
  aef : String
  json : String
  aef_usage : String
  deriving DecidableEq, Repr

/-- Static description of a struct field.  `exported` says whether the
identifier is exported: the `reflect` setters panic on a value obtained through
an unexported field. -/
structure Field where
  name : String
  tag : Tag
  kind : Kind
  exported : Bool
  deriving DecidableEq, Repr

/-- A field of the struct behind `ss`, with the value it holds. -/
structure Slot where
  field : Field
  val : Val
  deriving DecidableEq, Repr

/-- The errors the package returns. -/
inductive Err
  | ErrFlagAlreadyParsed
  | unknownType (k : Kind)
  | unknownValue (v : Iface)
  deriving DecidableEq, Repr

/-- How a call ends: it returns `nil`, returns an error, panics, or the process
exits. -/
inductive Outcome
  | nil
  | error (e : Err)
  | panic
  | exit
  deriving DecidableEq, Repr

/-- Library functions used by the code and defined outside the repository. -/
structure Lib where
  /-- `strings.ToLower` -/
  toLower : String → String
  /-- `strings.ToUpper` -/
  toUpper : String → String
  /-- `strconv.ParseBool`; `none` when it returns an error -/
  parseBool : String → Option Bool
  /-- `strconv.ParseInt(s, 10, 64)` -/
  parseInt : String → Option Int
  /-- `strconv.ParseUint(s, 10, 64)` -/
  parseUint : String → Option Nat
  /-- `strconv.ParseFloat(s, 64)` -/
  parseFloat : String → Option Float64
  /-- the conversion `float32(x)`, as stored in a float32 field -/
  toFloat32 : Float64 → Float64
  /-- the width of `int`, `uint` and `uintptr` -/
  intSize : Nat
  /-- `json.Unmarshal` into a `map[string]interface{}`; `none` on error -/
  unmarshal : String → Option (List (String × Iface))
  /-- `Set` of the `flag.Value` of a flag of the given kind -/
  flagValue : Kind → String → Option Val
  /-- the names `flag.Var` accepts -/
  flagNameOk : String → Bool

/-- What the process sees of the outside. -/
structure World where
  /-- `os.Getenv` -/
  getenv : String → String
  /-- `ioutil.ReadFile` behind `dumpFile`; `none` on error -/
  dumpFile : String → Option String
  /-- the flags of `os.Args`, in order, each with the text of its value -/
  args : List (String × String)

/-- A flag defined in `flag.CommandLine`.  `target` is the index of the field
of `ss` its value pointer refers to, `none` for a variable elsewhere. -/
structure Flag where
  name : String
  usage : String
  kind : Kind
  target : Option Nat
  deriving DecidableEq, Repr

/-- The state of `flag.CommandLine`. -/
structure FlagSet where
  parsed : Bool
  formal : List Flag
  deriving DecidableEq, Repr

/-- The keys of `setMap`. -/
abbrev SetMap := List String

/-- The assignment `setMap[k] = true`. -/
def SetMap.mark (m : SetMap) (k : String) : SetMap :=
  if k ∈ m then m else k :: m

/-! ## Machine integers and the reflect setters -/

/-- Conversion of an integer to the signed type of width `w`. -/
def wrapInt (w : Nat) (x : Int) : Int :=
  (x + 2 ^ (w - 1)) % 2 ^ w - 2 ^ (w - 1)

/-- Conversion of a natural number to the unsigned type of width `w`. -/
def wrapUint (w : Nat) (n : Nat) : Nat :=
  n % 2 ^ w

/-- `reflect.Value.SetBool` -/
def Slot.SetBool (s : Slot) (x : Bool) : Option Slot :=
  if s.field.exported then
    match s.field.kind with
    | .bool => some { s with val := .bool x }
    | _ => none
  else none

/-- `reflect.Value.SetInt`; the argument is an int64 -/
def Slot.SetInt (L : Lib) (s : Slot) (x : Int) : Option Slot :=
  if s.field.exported then
    match s.field.kind with
    | .int => some { s with val := .int (wrapInt L.intSize x) }
    | .int8 => some { s with val := .int (wrapInt 8 x) }
    | .int16 => some { s with val := .int (wrapInt 16 x) }
    | .int32 => some { s with val := .int (wrapInt 32 x) }
    | .int64 => some { s with val := .int (wrapInt 64 x) }
    | _ => none
  else none

/-- `reflect.Value.SetUint`; the argument is a uint64 -/
def Slot.SetUint (L : Lib) (s : Slot) (x : Nat) : Option Slot :=
  if s.field.exported then
    match s.field.kind with
    | .uint => some { s with val := .uint (wrapUint L.intSize x) }
    | .uintptr => some { s with val := .uint (wrapUint L.intSize x) }
    | .uint8 => some { s with val := .uint (wrapUint 8 x) }
    | .uint16 => some { s with val := .uint (wrapUint 16 x) }
    | .uint32 => some { s with val := .uint (wrapUint 32 x) }
    | .uint64 => some { s with val := .uint (wrapUint 64 x) }
    | _ => none
  else none

/-- `reflect.Value.SetFloat` -/
def Slot.SetFloat (L : Lib) (s : Slot) (x : Float64) : Option Slot :=
  if s.field.exported then
    match s.field.kind with
    | .float32 => some { s with val := .float (L.toFloat32 x) }
    | .float64 => some { s with val := .float x }
    | _ => none
  else none

/-- `reflect.Value.SetBytes` -/
def Slot.SetBytes (s : Slot) (x : List Nat) : Option Slot :=
  if s.field.exported then
    match s.field.kind with
    | .bytes => some { s with val := .bytes x }
    | _ => none
  else none

/-- `reflect.Value.SetString` -/
def Slot.SetString (s : Slot) (x : String) : Option Slot :=
  if s.field.exported then
    match s.field.kind with
    | .string => some { s with val := .str x }
    | _ => none
  else none

/-- The zero value of a kind. -/
def Kind.zero : Kind → Val
  | .bool => .bool false
  | .string => .str ""
  | .int | .int8 | .int16 | .int32 | .int64 => .int 0
  | .uint | .uint8 | .uint16 | .uint32 | .uint64 | .uintptr => .uint 0
  | .float32 | .float64 => .float ⟨0⟩
  | .bytes => .bytes []
  | .other => .other 0

/-- The kinds with a case in the switch of `loadCommandlineFlags` (and of
`loadEnviron`). -/
def Kind.supported : Kind → Bool
  | .bool | .string | .int | .int64 | .uint | .uint64 | .float64 => true
  | _ => false

/-! ## resolveFlagName -/

/-- `resolveFlagName` (aef.go, lines 23-31). -/
def resolveFlagName (L : Lib) (fieldName : String) (t : Tag) : String :=
  if t.aef ≠ "" then t.aef
  else if t.json ≠ "" then t.json
  else L.toLower fieldName

/-- The name under which a field is registered as a flag and marked in
`setMap` by the first two layers. -/
def Slot.flagName (L : Lib) (s : Slot) : String :=
  resolveFlagName L s.field.name s.field.tag

/-! ## The loop over the fields -/

/-- The loop `for i := 0; i < s.NumField(); i++` of the three layers.  The body
receives the index, the state threaded through the loop and the field; it
returns `nil` to go on with the next field, and any other outcome leaves the
loop (a `return` of an error, a panic), the remaining fields untouched. -/
def forEachField {σ : Type} (body : Nat → σ → Slot → Outcome × σ × Slot) :
    Nat → List Slot → σ → Outcome × σ × List Slot
  | _, [], st => (.nil, st, [])
  | i, s :: rest, st =>
    match body i st s with
    | (.nil, st1, s1) =>
      match forEachField body (i + 1) rest st1 with
      | (o, st2, rest1) => (o, st2, s1 :: rest1)
    | (o, st1, s1) => (o, st1, s1 :: rest)

/-! ## loadCommandlineFlags -/

/-- `flag.BoolVar(p, name, value, usage)` and its siblings: the default is
written through the pointer, then `flag.Var` defines the flag and panics when
the name is refused or already defined. -/
def flagVar (L : Lib) (G : FlagSet) (s : Slot) (i : Nat) (name usage : String) (value : Val) :
    Outcome × FlagSet × Slot :=
  if L.flagNameOk name = true ∧ name ∉ G.formal.map Flag.name then
    (.nil, { G with formal := G.formal ++ [Flag.mk name usage s.field.kind (some i)] },
      { s with val := value })
  else (.panic, G, { s with val := value })

/-- Body of the loop of `loadCommandlineFlags` (aef.go, lines 43-69). -/
def registerField (L : Lib) (i : Nat) (G : FlagSet) (s : Slot) : Outcome × FlagSet × Slot :=
  let flagName := resolveFlagName L s.field.name s.field.tag
  let usage := if s.field.tag.aef_usage = "" then "Set " ++ flagName else s.field.tag.aef_usage
  match s.field.kind with
  | .bool => flagVar L G s i flagName usage (.bool false)
  | .string => flagVar L G s i flagName usage (.str "")
  | .int => flagVar L G s i flagName usage (.int 0)
  | .int64 => flagVar L G s i flagName usage (.int 0)
  | .uint => flagVar L G s i flagName usage (.uint 0)
  | .uint64 => flagVar L G s i flagName usage (.uint 0)
  | .float64 => flagVar L G s i flagName usage (.float ⟨0⟩)
  | _ =>
    if s.field.tag.aef ≠ "-" then (.error (.unknownType s.field.kind), G, s)
    else (.nil, G, s)

/-- Writes `v` to the field of index `i`. -/
def assign (v : Val) : Nat → List Slot → List Slot
  | _, [] => []
  | 0, s :: rest => { s with val := v } :: rest
  | i + 1, s :: rest => s :: assign v i rest

/-- One flag of the command line, as `flag.Parse` handles it: the flag is looked
up among the defined ones, the text is parsed for its kind and stored through
its pointer, and the name enters the `actual` flags.  `none` when the flag is
not defined or the text does not parse: the process exits. -/
def parseOne (L : Lib) (formal : List Flag) (ss : List Slot) (actual : SetMap)
    (name value : String) : Option (List Slot × SetMap) :=
  match formal.find? (fun fl => decide (fl.name = name)) with
  | none => none
  | some fl =>
    match L.flagValue fl.kind value with
    | none => none
    | some v =>
      match fl.target with
      | some i => some (assign v i ss, actual.mark name)
      | none => some (ss, actual.mark name)

/-- `flag.Parse()` over the flags of the command line. -/
def parseArgs (L : Lib) (formal : List Flag) :
    List (String × String) → List Slot → SetMap → Option (List Slot × SetMap)
  | [], ss, actual => some (ss, actual)
  | (name, value) :: rest, ss, actual =>
    match parseOne L formal ss actual name value with
    | none => none
    | some (ss1, actual1) => parseArgs L formal rest ss1 actual1

/-- `loadCommandlineFlags` (aef.go, lines 33-80). -/
def loadCommandlineFlags (L : Lib) (W : World) (G : FlagSet) (ss : List Slot) (setMap : SetMap) :
    Outcome × FlagSet × List Slot × SetMap :=
  if G.parsed then (.error .ErrFlagAlreadyParsed, G, ss, setMap)
  else
    match forEachField (registerField L) 0 ss G with
    | (.nil, G1, ss1) =>
      match parseArgs L G1.formal W.args ss1 [] with
      | none => (.exit, { G1 with parsed := true }, ss1, setMap)
      | some (ss2, actual) =>
        (.nil, { G1 with parsed := true }, ss2, actual.foldl SetMap.mark setMap)
    | (o, G1, ss1) => (o, G1, ss1, setMap)

/-! ## loadEnviron -/

/-- `strings.Replace(s, "-", "_", -1)` -/
def replaceDash (s : String) : String :=
  String.mk (s.data.map (fun c => if c = '-' then '_' else c))

/-- The three lookups of `loadEnviron` (aef.go, lines 103-112). -/
def envLookup (L : Lib) (getenv : String → String) (flagName : String) : String :=
  let envVal := getenv flagName
  let envVal := if envVal = "" then getenv (L.toUpper flagName) else envVal
  let envVal := if envVal = "" then getenv (L.toLower flagName) else envVal
  envVal

/-- After a setter: the key is marked, or the setter panicked. -/
def stored (s : Slot) (setMap : SetMap) (key : String) : Option Slot → Outcome × SetMap × Slot
  | some s1 => (.nil, setMap.mark key, s1)
  | none => (.panic, setMap, s)

/-- The switch of `loadEnviron` on the kind of the field, with the marking
that follows it (aef.go, lines 114-147). -/
def envAssign (L : Lib) (s : Slot) (setMap : SetMap) (flagNameOrig envVal : String) :
    Outcome × SetMap × Slot :=
  match s.field.kind with
  | .bool => stored s setMap flagNameOrig (s.SetBool ((L.parseBool envVal).getD false))
  | .string => stored s setMap flagNameOrig (s.SetString envVal)
  | .int | .int64 =>
    match L.parseInt envVal with
    | none => (.nil, setMap, s)
    | some v => stored s setMap flagNameOrig (s.SetInt L v)
  | .uint | .uint64 =>
    match L.parseUint envVal with
    | none => (.nil, setMap, s)
    | some v => stored s setMap flagNameOrig (s.SetUint L v)
  | .float64 =>
    match L.parseFloat envVal with
    | none => (.nil, setMap, s)
    | some v => stored s setMap flagNameOrig (s.SetFloat L v)
  | _ =>
    if s.field.tag.aef ≠ "-" then (.error (.unknownType s.field.kind), setMap, s)
    else (.nil, setMap.mark flagNameOrig, s)

/-- Body of the loop of `loadEnviron` (aef.go, lines 94-148). -/
def loadEnvironField (L : Lib) (getenv : String → String) (_i : Nat) (setMap : SetMap)
    (s : Slot) : Outcome × SetMap × Slot :=
  let flagNameOrig := resolveFlagName L s.field.name s.field.tag
  let flagName := replaceDash flagNameOrig
  if flagNameOrig ∈ setMap then (.nil, setMap, s)
  else
    let envVal := envLookup L getenv flagName
    if envVal ≠ "" then envAssign L s setMap flagNameOrig envVal
    else (.nil, setMap, s)

/-- `loadEnviron` (aef.go, lines 82-151). -/
def loadEnviron (L : Lib) (getenv : String → String) (ss : List Slot) (setMap : SetMap) :
    Outcome × SetMap × List Slot :=
  if setMap.length = ss.length then (.nil, setMap, ss)
  else forEachField (loadEnvironField L getenv) 0 ss setMap

/-! ## loadFile -/

/-- The type switch of `loadFile` with the marking that follows it (aef.go,
lines 196-218). -/
def fileAssign (L : Lib) (s : Slot) (setMap : SetMap) (flagName : String) (iface : Iface) :
    Outcome × SetMap × Slot :=
  match iface with
  | .bool v => stored s setMap flagName (s.SetBool v)
  | .int v => stored s setMap flagName (s.SetInt L v)
  | .int64 v => stored s setMap flagName (s.SetInt L v)
  | .uint v => stored s setMap flagName (s.SetUint L v)
  | .uint64 v => stored s setMap flagName (s.SetUint L v)
  | .float64 v => stored s setMap flagName (s.SetFloat L v)
  | .bytes v => stored s setMap flagName (s.SetBytes v)
  | .string v => stored s setMap flagName (s.SetString v)
  | v =>
    if s.field.tag.aef ≠ "-" then (.error (.unknownValue v), setMap, s)
    else (.nil, setMap.mark flagName, s)

/-- Body of the inner loop of `loadFile`, for one candidate name (aef.go,
lines 186-218). -/
def loadFileKey (L : Lib) (m : List (String × Iface)) (setMap : SetMap) (s : Slot)
    (flagName : String) : Outcome × SetMap × Slot :=
  match m.lookup flagName with
  | none => (.nil, setMap, s)
  | some iface =>
    if flagName ∈ setMap then (.nil, setMap, s)
    else fileAssign L s setMap flagName iface

/-- The inner loop of `loadFile` over the candidate names. -/
def loadFileKeys (L : Lib) (m : List (String × Iface)) :
    List String → SetMap → Slot → Outcome × SetMap × Slot
  | [], setMap, s => (.nil, setMap, s)
  | flagName :: rest, setMap, s =>
    match loadFileKey L m setMap s flagName with
    | (.nil, setMap1, s1) => loadFileKeys L m rest setMap1 s1
    | r => r

/-- Body of the outer loop of `loadFile` (aef.go, lines 179-219). -/
def loadFileField (L : Lib) (m : List (String × Iface)) (_i : Nat) (setMap : SetMap)
    (s : Slot) : Outcome × SetMap × Slot :=
  loadFileKeys L m [s.field.tag.aef, s.field.tag.json, L.toLower s.field.name] setMap s

/-- The path handed to `dumpFile` (aef.go, lines 164-166). -/
def expandPath (getenv : String → String) (filePath : String) : String :=
  if filePath.data.head? = some '~' then getenv "HOME" ++ String.mk filePath.data.tail
  else filePath

/-- `loadFile` (aef.go, lines 155-222).  The last component lists the paths
handed to `dumpFile`. -/
def loadFile (L : Lib) (W : World) (ss : List Slot) (setMap : SetMap) (filePath : String) :
    Outcome × SetMap × List Slot × List String :=
  if filePath = "" ∨ setMap.length = ss.length then (.nil, setMap, ss, [])
  else
    match W.dumpFile (expandPath W.getenv filePath) with
    | none => (.nil, setMap, ss, [expandPath W.getenv filePath])
    | some f =>
      match L.unmarshal f with
      | none => (.nil, setMap, ss, [expandPath W.getenv filePath])
      | some m =>
        match forEachField (loadFileField L m) 0 ss setMap with
        | (o, setMap1, ss1) => (o, setMap1, ss1, [expandPath W.getenv filePath])

/-! ## Load -/

/-- `Load` (aef.go, lines 226-238): the outcome, the state of `flag.CommandLine`,
the struct and the paths read. -/
def Load (L : Lib) (W : World) (G : FlagSet) (ss : List Slot) (filePath : String) :
    Outcome × FlagSet × List Slot × List String :=
  match loadCommandlineFlags L W G ss [] with
  | (.nil, G1, ss1, setMap1) =>
    match loadEnviron L W.getenv ss1 setMap1 with
    | (.nil, setMap2, ss2) =>
      match loadFile L W ss2 setMap2 filePath with
      | (o, _, ss3, reads) => (o, G1, ss3, reads)
    | (o, _, ss2) => (o, G1, ss2, [])
  | (o, G1, ss1, _) => (o, G1, ss1, [])

/-! ## A concrete library and the struct of the example

`goLib` gives the library functions on the inputs used in the examples below:
ASCII letters for the case mappings, the tokens of `strconv.ParseBool`, decimal
integers, a few decimal floats and a few JSON documents. -/

/-- `unicode.ToLower` on an ASCII character. -/
def lowerChar (c : Char) : Char :=
  if 'A' ≤ c ∧ c ≤ 'Z' then Char.ofNat (c.toNat + 32) else c

/-- `unicode.ToUpper` on an ASCII character. -/
def upperChar (c : Char) : Char :=
  if 'a' ≤ c ∧ c ≤ 'z' then Char.ofNat (c.toNat - 32) else c

/-- `strings.ToLower` on ASCII text. -/
def asciiLower (s : String) : String := String.mk (s.data.map lowerChar)

/-- `strings.ToUpper` on ASCII text. -/
def asciiUpper (s : String) : String := String.mk (s.data.map upperChar)

/-- `strconv.ParseBool` -/
def goParseBool (s : String) : Option Bool :=
  if s ∈ ["1", "t", "T", "TRUE", "true", "True"] then some true
  else if s ∈ ["0", "f", "F", "FALSE", "false", "False"] then some false
  else none

/-- The number written by a list of decimal digits, `none` for any other text. -/
def digits : List Char → Option Nat
  | [] => none
  | cs => cs.foldl (fun acc c =>
      match acc with
      | none => none
      | some n => if '0' ≤ c ∧ c ≤ '9' then some (10 * n + (c.toNat - 48)) else none) (some 0)

/-- `strconv.ParseUint(s, 10, 64)` -/
def goParseUint (s : String) : Option Nat :=
  match digits s.data with
  | some n => if n < 2 ^ 64 then some n else none
  | none => none

/-- `strconv.ParseInt(s, 10, 64)` -/
def goParseInt (s : String) : Option Int :=
  match s.data with
  | '-' :: cs =>
    match digits cs with
    | some n => if n ≤ 2 ^ 63 then some (-(n : Int)) else none
    | none => none
  | '+' :: cs =>
    match digits cs with
    | some n => if n < 2 ^ 63 then some (n : Int) else none
    | none => none
  | cs =>
    match digits cs with
    | some n => if n < 2 ^ 63 then some (n : Int) else none
    | none => none

/-- `strconv.ParseFloat(s, 64)` on a few texts. -/
def goParseFloat (s : String) : Option Float64 :=
  [("0", Float64.mk 0), ("0.5", Float64.mk 0x3FE0000000000000),
   ("1", Float64.mk 0x3FF0000000000000), ("1.5", Float64.mk 0x3FF8000000000000)].lookup s

/-- The JSON document with the key `api_key` only. -/
def docApiKey : String := "\x7b\"api_key\": \"from-file\"\x7d"

/-- The JSON document with a number under `port`. -/
def docPort : String := "\x7b\"port\": 8080\x7d"

/-- The JSON document with both `api-key` and `api_key`. -/
def docBothKeys : String := "\x7b\"api-key\": \"first\", \"api_key\": \"second\"\x7d"

/-- The JSON document with a boolean under `debug`. -/
def docDebug : String := "\x7b\"debug\": true\x7d"

/-- The JSON document with `null` under `api_key`. -/
def docNull : String := "\x7b\"api_key\": null\x7d"

/-- `json.Unmarshal` on the documents above; other texts used below are not
JSON. -/
def goUnmarshal (f : String) : Option (List (String × Iface)) :=
  [(docApiKey, [("api_key", Iface.string "from-file")]),
   (docPort, [("port", Iface.float64 (Float64.mk 0x40BF900000000000))]),
   (docBothKeys, [("api-key", Iface.string "first"), ("api_key", Iface.string "second")]),
   (docDebug, [("debug", Iface.bool true)]),
   (docNull, [("api_key", Iface.null)])].lookup f

/-- The value parsers of package `flag`. -/
def goFlagValue (k : Kind) (s : String) : Option Val :=
  match k with
  | .bool => (goParseBool s).map Val.bool
  | .string => some (.str s)
  | .int | .int64 => (goParseInt s).map Val.int
  | .uint | .uint64 => (goParseUint s).map Val.uint
  | .float64 => (goParseFloat s).map Val.float
  | _ => none

/-- The library on a 64-bit platform. -/
def goLib : Lib where
  toLower := asciiLower
  toUpper := asciiUpper
  parseBool := goParseBool
  parseInt := goParseInt
  parseUint := goParseUint
  parseFloat := goParseFloat
  toFloat32 := id
  intSize := 64
  unmarshal := goUnmarshal
  flagValue := goFlagValue
  flagNameOk := fun name => decide (name ≠ "" ∧ name.data.head? ≠ some '-' ∧ '=' ∉ name.data)

/-- A string field, holding the empty string. -/
def stringField (name aef json : String) : Slot :=
  ⟨⟨name, ⟨aef, json, ""⟩, .string, true⟩, .str ""⟩

/-- The struct `MailgunArgs` of the example (aef_test.go), all fields empty. -/
def mailgunArgs : List Slot :=
  [⟨⟨"Domain", ⟨"domain", "domain", "mailgun domain"⟩, .string, true⟩, .str ""⟩,
   stringField "APIKey" "api-key" "api_key",
   stringField "PublicKey" "public-key" "public_key",
   stringField "TplFile" "tpl-file" "tpl_file"]

/-- `flag.CommandLine` of a process that has defined and parsed nothing. -/
def freshFlags : FlagSet := ⟨false, []⟩

/-- A file system holding one file. -/
def oneFile (path content : String) : String → Option String :=
  fun p => if p = path then some content else none

/-- An environment given by a list of variables. -/
def environ (vars : List (String × String)) : String → String :=
  fun k => (vars.lookup k).getD ""

/-- The text the environment layer is to use, in the words of the specification:
of the values found under the given names, the first that is not empty, and the
empty text when there is none. -/
def firstNonEmpty (getenv : String → String) (names : List String) : String :=
  ((names.map getenv).find? (fun v => decide (v ≠ ""))).getD ""

/-- One environment variable `API_KEY`, next to `HOME`. -/
def envApiKey : String → String :=
  environ [("HOME", "/home/u"), ("API_KEY", "from-env")]

/-- The world of the example: `~/.mailgun.json` holds `api_key` only, the
command line sets `-api-key`. -/
def worldCli : World :=
  ⟨environ [("HOME", "/home/u")], oneFile "/home/u/.mailgun.json" docApiKey,
    [("api-key", "from-cli")]⟩

/-- The world of the example with `API_KEY` in the environment and an empty
command line. -/
def worldEnv : World :=
  ⟨envApiKey, oneFile "/home/u/.mailgun.json" docApiKey, []⟩

/-- A world whose file holds both `api-key` and `api_key`. -/
def worldBothKeys : World :=
  ⟨environ [("HOME", "/home/u")], oneFile "/home/u/.mailgun.json" docBothKeys, []⟩

/-- A bool field `Debug` holding `true`, next to a string field `Name`. -/
def debugArgs : List Slot :=
  [⟨⟨"Debug", ⟨"", "debug", ""⟩, .bool, true⟩, .bool true⟩, stringField "Name" "" "name"]

/-- The field after the registration of its flag: the default of the flag is
written to a field of one of the seven kinds, any other field is left alone. -/
def Slot.reset (s : Slot) : Slot :=
  if s.field.kind.supported then { s with val := s.field.kind.zero } else s

/-- The typed value of a text for a field of the given kind, in the words of the
specification: a boolean by the parsing of the true/false tokens, an integer or
unsigned integer by base-10 parsing, a float by decimal parsing, a string as it
is; converted to the type of the field. -/
def coerce (L : Lib) : Kind → String → Option Val
  | .bool, v => (L.parseBool v).map Val.bool
  | .string, v => some (.str v)
  | .int, v => (L.parseInt v).map (fun x => .int (wrapInt L.intSize x))
  | .int64, v => (L.parseInt v).map (fun x => .int (wrapInt 64 x))
  | .uint, v => (L.parseUint v).map (fun x => .uint (wrapUint L.intSize x))
  | .uint64, v => (L.parseUint v).map (fun x => .uint (wrapUint 64 x))
  | .float64, v => (L.parseFloat v).map Val.float
  | _, _ => none

/-- The names under which `loadFile` looks a field up in the document. -/
def Slot.candidates (L : Lib) (s : Slot) : List String :=
  [s.field.tag.aef, s.field.tag.json, L.toLower s.field.name]

/-- The dynamic values `loadFile` can meet under a candidate name of a field
without returning an error and without a panic: a value of a type the setter
of the field accepts, the field being exported, or any value the type switch
does not know when the field bears the discard marker. -/
def Field.takes (f : Field) : Iface → Bool
  | .bool _ => f.exported && decide (f.kind = .bool)
  | .int _ | .int64 _ =>
    f.exported && decide (f.kind ∈ [Kind.int, .int8, .int16, .int32, .int64])
  | .uint _ | .uint64 _ =>
    f.exported && decide (f.kind ∈ [Kind.uint, .uint8, .uint16, .uint32, .uint64, .uintptr])
  | .float64 _ => f.exported && decide (f.kind ∈ [Kind.float32, .float64])
  | .bytes _ => f.exported && decide (f.kind = .bytes)
  | .string _ => f.exported && decide (f.kind = .string)
  | _ => decide (f.tag.aef = "-")

/-- The value a JSON boolean, number or string gives to a field of kind bool,
float64 or string. -/
def jsonValue : Kind → Iface → Option Val
  | .bool, .bool b => some (.bool b)
  | .float64, .float64 x => some (.float x)
  | .string, .string x => some (.str x)
  | _, _ => none

/-- What a step on one field may do: keep the description of the field, keep
the keys of the resolved set and add at most the key `k`. -/
def Frame (s : Slot) (m : SetMap) (k : String) (r : Outcome × SetMap × Slot) : Prop :=
  r.2.2.field = s.field ∧ m ⊆ r.2.1 ∧ ∀ x ∈ r.2.1, x = k ∨ x ∈ m

/-- The struct of the example with one more field, a channel `Done` without
the discard marker. -/
def mailgunWithChan : List Slot :=
  mailgunArgs ++ [⟨⟨"Done", ⟨"", "", ""⟩, .other, true⟩, .other 0⟩]

/-- The world of the example with an empty command line, nothing in the
environment but `HOME`, and the given content in `~/.mailgun.json`. -/
def worldFile (content : String) : World :=
  ⟨environ [("HOME", "/home/u")], oneFile "/home/u/.mailgun.json" content, []⟩

/-- A world without any file, with an empty command line and nothing in the
environment but `HOME`. -/
def worldMissing : World :=
  ⟨environ [("HOME", "/home/u")], fun _ => none, []⟩

/-- A world without any file, with an empty command line and `API_KEY` in the
environment. -/
def worldEnvOnly : World :=
  ⟨envApiKey, fun _ => none, []⟩

/-- The dynamic types with a case of their own in the type switch of
`loadFile`; every other value reaches the `default` case. -/
def Iface.known : Iface → Bool
  | .bool _ | .int _ | .int64 _ | .uint _ | .uint64 _ | .float64 _ | .bytes _ | .string _ => true
  | _ => false

/-- The names of the flags `loadCommandlineFlags` defines for a struct: the
canonical names of the fields of the seven kinds, in order. -/
def flagNames (L : Lib) (ss : List Slot) : List String :=
  (ss.filter (fun s => s.field.kind.supported)).map (Slot.flagName L)

/-- The JSON document with an array under `domain`. -/
def docArray : String := "\x7b\"domain\": []\x7d"

/-- The JSON document with an object under `domain`. -/
def docObject : String := "\x7b\"domain\": \x7b\x7d\x7d"

/-- The JSON document with a string under `done`. -/
def docDone : String := "\x7b\"done\": \"x\"\x7d"

/-- The JSON document with a number under `ratio`. -/
def docRatio : String := "\x7b\"ratio\": 1.5\x7d"

/-- `goLib` with `json.Unmarshal` knowing four more documents. -/
def goLibDocs : Lib :=
  { goLib with
    unmarshal := fun f =>
      match [(docArray, [("domain", Iface.array)]),
             (docObject, [("domain", Iface.object)]),
             (docDone, [("done", Iface.string "x")]),
             (docRatio, [("ratio", Iface.float64 (Float64.mk 0x3FF8000000000000))])].lookup f with
      | some m => some m
      | none => goUnmarshal f }

/-- A struct with a bool field `Debug` and a string field `Name`, at their zero
values. -/
def debugZero : List Slot :=
  [⟨⟨"Debug", ⟨"", "debug", ""⟩, .bool, true⟩, .bool false⟩, stringField "Name" "" "name"]

/-- A struct with a string field `Debug` and a string field `Port`, both
empty. -/
def textArgs : List Slot :=
  [stringField "Debug" "" "debug", stringField "Port" "" "port"]

/-- A struct with an int field `Port` and a string field `Host`, at their zero
values. -/
def portArgs : List Slot :=
  [⟨⟨"Port", ⟨"", "port", ""⟩, .int, true⟩, .int 0⟩, stringField "Host" "" "host"]

/-- A struct with a string field `Name` holding `x` and a channel `Done`
without the discard marker. -/
def namedChan : List Slot :=
  [⟨⟨"Name", ⟨"", "name", ""⟩, .string, true⟩, .str "x"⟩,
   ⟨⟨"Done", ⟨"", "", ""⟩, .other, true⟩, .other 7⟩]

/-- A struct with a single field, a channel `Done` without the discard
marker. -/
def chanOnly : List Slot :=
  [⟨⟨"Done", ⟨"", "", ""⟩, .other, true⟩, .other 7⟩]

/-- A struct with a string field `Name`, a channel `Done` and a float32 field
`Ratio`, the last two with the discard marker. -/
def discardArgs : List Slot :=
  [stringField "Name" "" "name",
   ⟨⟨"Done", ⟨"-", "done", ""⟩, .other, true⟩, .other 7⟩,
   ⟨⟨"Ratio", ⟨"-", "ratio", ""⟩, .float32, true⟩, .float ⟨0⟩⟩]

/-- The struct of the example with its four fields set. -/
def mailgunSet : List Slot :=
  [⟨⟨"Domain", ⟨"domain", "domain", "mailgun domain"⟩, .string, true⟩, .str "a"⟩,
   ⟨⟨"APIKey", ⟨"api-key", "api_key", ""⟩, .string, true⟩, .str "b"⟩,
   ⟨⟨"PublicKey", ⟨"public-key", "public_key", ""⟩, .string, true⟩, .str "c"⟩,
   ⟨⟨"TplFile", ⟨"tpl-file", "tpl_file", ""⟩, .string, true⟩, .str "d"⟩]

/-- `flag.CommandLine` of a process in which another package has defined the
bool flag `verbose`. -/
def verboseFlags : FlagSet := ⟨false, [⟨"verbose", "be verbose", .bool, none⟩]⟩

/-- The world of the example with `api_key` in the file and a command line
that sets the four flags of the struct and `-verbose`. -/
def worldAllSet : World :=
  ⟨environ [("HOME", "/home/u")], oneFile "/home/u/.mailgun.json" docApiKey,
    [("domain", "a"), ("api-key", "b"), ("public-key", "c"), ("tpl-file", "d"),
     ("verbose", "true")]⟩

/-- A struct whose first field, a channel `Done` without the discard marker, is
followed by a string field `Name`. -/
def doneFirst : List Slot :=
  [⟨⟨"Done", ⟨"", "done", ""⟩, .other, true⟩, .other 7⟩, stringField "Name" "" "name"]

/-- A struct with one field, the unexported string `secret` with the json tag
`done`. -/
def secretArgs : List Slot :=
  [⟨⟨"secret", ⟨"", "done", ""⟩, .string, false⟩, .str ""⟩]

/-- A world with `HOME=/home/u` and two files: `/home/u/.mailgun.json` holds
`api_key` only, and a file whose name is the text `~/.mailgun.json` holds both
`api-key` and `api_key`. -/
def worldTwoFiles : World :=
  ⟨environ [("HOME", "/home/u")],
    fun p => [("/home/u/.mailgun.json", docApiKey), ("~/.mailgun.json", docBothKeys)].lookup p,
    []⟩

set_option maxRecDepth 100000

/-! ## Theorems -/

section Loop
variable {σ : Type} (body : Nat → σ → Slot → Outcome × σ × Slot)

theorem forEachField_cons_nil {i : Nat} {s : Slot} {rest : List Slot} {st st1 : σ} {s1 : Slot}
    (h : body i st s = (.nil, st1, s1)) :
    forEachField body i (s :: rest) st
      = ((forEachField body (i + 1) rest st1).1, (forEachField body (i + 1) rest st1).2.1,
          s1 :: (forEachField body (i + 1) rest st1).2.2) := by
  simp [forEachField, h]

theorem forEachField_cons_stop {i : Nat} {s : Slot} {rest : List Slot} {st st1 : σ} {s1 : Slot}
    {o : Outcome} (h : body i st s = (o, st1, s1)) (ho : o ≠ .nil) :
    forEachField body i (s :: rest) st = (o, st1, s1 :: rest) := by
  cases o <;> simp_all [forEachField]

theorem forEachField_length (ss : List Slot) (i : Nat) (st : σ) :
    (forEachField body i ss st).2.2.length = ss.length := by
  induction ss generalizing i st with
  | nil => simp [forEachField]
  | cons s rest ih =>
    rcases h : body i st s with ⟨o, st1, s1⟩
    by_cases ho : o = .nil
    · subst ho
      rw [forEachField_cons_nil body h]
      simp [ih]
    · rw [forEachField_cons_stop body h ho]
      simp

/-- An invariant of the state and a relation between a field before and after
are carried through the loop. -/
theorem forEachField_rel (Inv : σ → Prop) (R : Slot → Slot → Prop) (hR : ∀ s, R s s)
    (ss : List Slot)
    (hbody : ∀ s ∈ ss, ∀ i st, Inv st → Inv (body i st s).2.1 ∧ R s (body i st s).2.2)
    (i : Nat) (st : σ) (hst : Inv st) :
    Inv (forEachField body i ss st).2.1
      ∧ List.Forall₂ R ss (forEachField body i ss st).2.2 := by
  induction ss generalizing i st with
  | nil => simp [forEachField, hst]
  | cons s rest ih =>
    have hs := hbody s (List.mem_cons_self _ _) i st hst
    rcases h : body i st s with ⟨o, st1, s1⟩
    rw [h] at hs
    by_cases ho : o = .nil
    · subst ho
      rw [forEachField_cons_nil body h]
      have := ih (fun t ht => hbody t (List.mem_cons_of_mem _ ht)) (i + 1) st1 hs.1
      exact ⟨this.1, List.Forall₂.cons hs.2 this.2⟩
    · rw [forEachField_cons_stop body h ho]
      refine ⟨hs.1, List.Forall₂.cons hs.2 ?_⟩
      exact List.forall₂_same.mpr (fun t _ => hR t)

/-- When the body returns `nil` on every field, under an invariant of the
state, so does the loop. -/
theorem forEachField_nil (Inv : σ → Prop) (ss : List Slot)
    (hbody : ∀ s ∈ ss, ∀ i st, Inv st → Inv (body i st s).2.1 ∧ (body i st s).1 = .nil)
    (i : Nat) (st : σ) (hst : Inv st) :
    (forEachField body i ss st).1 = .nil := by
  induction ss generalizing i st with
  | nil => simp [forEachField]
  | cons s rest ih =>
    have hs := hbody s (List.mem_cons_self _ _) i st hst
    rcases h : body i st s with ⟨o, st1, s1⟩
    rw [h] at hs
    obtain ⟨h1, h2⟩ := hs
    simp only at h2
    subst h2
    rw [forEachField_cons_nil body h]
    exact ih (fun t ht => hbody t (List.mem_cons_of_mem _ ht)) (i + 1) st1 h1

/-- A loop that returns `nil` has run its body, with outcome `nil`, on every
field. -/
theorem forEachField_of_nil (Inv : σ → Prop)
    (hInv : ∀ i st s, Inv st → Inv (body i st s).2.1)
    (ss : List Slot) (i : Nat) (st : σ) (hst : Inv st)
    (h : (forEachField body i ss st).1 = .nil) :
    List.Forall₂ (fun a b => ∃ j st0, Inv st0 ∧ (body j st0 a).1 = .nil ∧ (body j st0 a).2.2 = b)
      ss (forEachField body i ss st).2.2 := by
  induction ss generalizing i st with
  | nil => simp [forEachField]
  | cons s rest ih =>
    rcases hb : body i st s with ⟨o, st1, s1⟩
    by_cases ho : o = .nil
    · subst ho
      rw [forEachField_cons_nil body hb] at h ⊢
      have h1 : Inv st1 := by have := hInv i st s hst; rwa [hb] at this
      refine List.Forall₂.cons ⟨i, st, hst, by rw [hb], by rw [hb]⟩ (ih (i + 1) st1 h1 h)
    · rw [forEachField_cons_stop body hb ho] at h
      exact absurd h ho

theorem forEachField_append (a b : List Slot) (i : Nat) (st : σ) :
    forEachField body i (a ++ b) st =
      (if (forEachField body i a st).1 = .nil then
        ((forEachField body (i + a.length) b (forEachField body i a st).2.1).1,
         (forEachField body (i + a.length) b (forEachField body i a st).2.1).2.1,
         (forEachField body i a st).2.2
           ++ (forEachField body (i + a.length) b (forEachField body i a st).2.1).2.2)
      else
        ((forEachField body i a st).1, (forEachField body i a st).2.1,
          (forEachField body i a st).2.2 ++ b)) := by
  induction a generalizing i st with
  | nil => simp [forEachField]
  | cons s rest ih =>
    rcases hb : body i st s with ⟨o, st1, s1⟩
    by_cases ho : o = .nil
    · subst ho
      rw [List.cons_append, forEachField_cons_nil body hb, forEachField_cons_nil body hb, ih]
      simp only [List.length_cons]
      have : i + 1 + rest.length = i + (rest.length + 1) := by omega
      rw [this]
      split <;> simp
    · rw [List.cons_append, forEachField_cons_stop body hb ho, forEachField_cons_stop body hb ho]
      simp [ho]

theorem split_at_index {α : Type} (l : List α) (i : Nat) (x : α) (h : l[i]? = some x) :
    ∃ pre post, l = pre ++ x :: post ∧ pre.length = i := by
  induction l generalizing i with
  | nil => simp at h
  | cons y rest ih =>
    cases i with
    | zero =>
      simp at h
      exact ⟨[], rest, by simp [h], rfl⟩
    | succ k =>
      simp at h
      obtain ⟨pre, post, h1, h2⟩ := ih k h
      exact ⟨y :: pre, post, by simp [h1], by simp [h2]⟩

theorem forall₂_getElem? {α β : Type} {R : α → β → Prop} {l : List α} {l2 : List β}
    (h : List.Forall₂ R l l2) (i : Nat) (x : α) (hx : l[i]? = some x) :
    ∃ y, l2[i]? = some y ∧ R x y := by
  induction h generalizing i with
  | nil => simp at hx
  | cons hab _ ih =>
    cases i with
    | zero => simp at hx; subst hx; exact ⟨_, by simp, hab⟩
    | succ k => simp at hx; simpa using ih k hx

end Loop

/-! ### The resolved set -/

theorem mem_mark {m : SetMap} {k x : String} : x ∈ m.mark k ↔ x = k ∨ x ∈ m := by
  unfold SetMap.mark
  split
  · constructor
    · exact Or.inr
    · rintro (h | h)
      · subst h; assumption
      · exact h
  · simp

theorem subset_mark (m : SetMap) (k : String) : m ⊆ m.mark k :=
  fun _ hx => mem_mark.mpr (Or.inr hx)

theorem mem_foldl_mark {a m : SetMap} {x : String} :
    x ∈ a.foldl SetMap.mark m ↔ x ∈ m ∨ x ∈ a := by
  induction a generalizing m with
  | nil => simp
  | cons k rest ih =>
    simp only [List.foldl_cons, ih, mem_mark, List.mem_cons]
    tauto

/-! ### The environment layer -/

theorem envLookup_eq_firstNonEmpty (L : Lib) (getenv : String → String) (name : String) :
    envLookup L getenv name = firstNonEmpty getenv [name, L.toUpper name, L.toLower name] := by
  unfold envLookup firstNonEmpty
  by_cases h1 : getenv name = ""
  · by_cases h2 : getenv (L.toUpper name) = ""
    · by_cases h3 : getenv (L.toLower name) = "" <;> simp [h1, h2, h3, List.find?]
    · simp [h1, h2, List.find?]
  · simp [h1, List.find?]

theorem stored_some (s s1 : Slot) (m : SetMap) (k : String) :
    stored s m k (some s1) = (.nil, m.mark k, s1) := rfl

theorem loadEnvironField_eq (L : Lib) (getenv : String → String) (i : Nat) (m : SetMap)
    (s : Slot) :
    loadEnvironField L getenv i m s =
      if s.flagName L ∈ m then (.nil, m, s)
      else if envLookup L getenv (replaceDash (s.flagName L)) ≠ "" then
        envAssign L s m (s.flagName L) (envLookup L getenv (replaceDash (s.flagName L)))
      else (.nil, m, s) := rfl

theorem SetBool_field {s s1 : Slot} {x : Bool} (h : s.SetBool x = some s1) :
    s1.field = s.field := by
  unfold Slot.SetBool at h
  split at h
  · split at h
    · obtain rfl := Option.some.inj h
      rfl
    · exact absurd h (Option.noConfusion)
  · exact absurd h (Option.noConfusion)

theorem SetString_field {s s1 : Slot} {x : String} (h : s.SetString x = some s1) :
    s1.field = s.field := by
  unfold Slot.SetString at h
  split at h
  · split at h
    · obtain rfl := Option.some.inj h
      rfl
    · exact absurd h (Option.noConfusion)
  · exact absurd h (Option.noConfusion)

theorem SetBytes_field {s s1 : Slot} {x : List Nat} (h : s.SetBytes x = some s1) :
    s1.field = s.field := by
  unfold Slot.SetBytes at h
  split at h
  · split at h
    · obtain rfl := Option.some.inj h
      rfl
    · exact absurd h (Option.noConfusion)
  · exact absurd h (Option.noConfusion)

theorem SetInt_field {L : Lib} {s s1 : Slot} {x : Int} (h : s.SetInt L x = some s1) :
    s1.field = s.field := by
  unfold Slot.SetInt at h
  split at h
  · split at h <;> simp at h <;> (subst h; rfl)
  · exact absurd h (Option.noConfusion)

theorem SetUint_field {L : Lib} {s s1 : Slot} {x : Nat} (h : s.SetUint L x = some s1) :
    s1.field = s.field := by
  unfold Slot.SetUint at h
  split at h
  · split at h <;> simp at h <;> (subst h; rfl)
  · exact absurd h (Option.noConfusion)

theorem SetFloat_field {L : Lib} {s s1 : Slot} {x : Float64} (h : s.SetFloat L x = some s1) :
    s1.field = s.field := by
  unfold Slot.SetFloat at h
  split at h
  · split at h <;> simp at h <;> (subst h; rfl)
  · exact absurd h (Option.noConfusion)

theorem frame_same (s : Slot) (m : SetMap) (k : String) (o : Outcome) : Frame s m k (o, m, s) :=
  ⟨rfl, fun _ h => h, fun _ h => Or.inr h⟩

theorem frame_mark (s : Slot) (m : SetMap) (k : String) (o : Outcome) :
    Frame s m k (o, m.mark k, s) :=
  ⟨rfl, subset_mark m k, fun _ h => mem_mark.mp h⟩

theorem frame_stored (s : Slot) (m : SetMap) (k : String) (r : Option Slot)
    (h : ∀ s1, r = some s1 → s1.field = s.field) : Frame s m k (stored s m k r) := by
  cases r with
  | none => exact frame_same s m k _
  | some s1 => exact ⟨h s1 rfl, subset_mark m k, fun _ hx => mem_mark.mp hx⟩

theorem envAssign_nil (L : Lib) (s : Slot) (m : SetMap) (k v : String)
    (h : s.field.kind.supported = true ∨ s.field.tag.aef = "-")
    (hexp : s.field.kind.supported = true → s.field.exported = true) :
    (envAssign L s m k v).1 = .nil := by
  unfold envAssign
  split
  · next hk => simp [stored, Slot.SetBool, hk, hexp (by rw [hk]; rfl)]
  · next hk => simp [stored, Slot.SetString, hk, hexp (by rw [hk]; rfl)]
  · next hk => split <;> simp [stored, Slot.SetInt, hk, hexp (by rw [hk]; rfl)]
  · next hk => split <;> simp [stored, Slot.SetInt, hk, hexp (by rw [hk]; rfl)]
  · next hk => split <;> simp [stored, Slot.SetUint, hk, hexp (by rw [hk]; rfl)]
  · next hk => split <;> simp [stored, Slot.SetUint, hk, hexp (by rw [hk]; rfl)]
  · next hk => split <;> simp [stored, Slot.SetFloat, hk, hexp (by rw [hk]; rfl)]
  · next h1 h2 h3 h4 h5 h6 h7 =>
    have haef : s.field.tag.aef = "-" := by
      rcases h with h | h
      · revert h
        rcases hk : s.field.kind <;> simp_all [Kind.supported]
      · exact h
    simp [haef]

theorem envAssign_frame (L : Lib) (s : Slot) (m : SetMap) (k v : String) :
    Frame s m k (envAssign L s m k v) := by
  unfold envAssign
  split
  · exact frame_stored _ _ _ _ (fun _ h => SetBool_field h)
  · exact frame_stored _ _ _ _ (fun _ h => SetString_field h)
  · split
    · exact frame_same _ _ _ _
    · exact frame_stored _ _ _ _ (fun _ h => SetInt_field h)
  · split
    · exact frame_same _ _ _ _
    · exact frame_stored _ _ _ _ (fun _ h => SetInt_field h)
  · split
    · exact frame_same _ _ _ _
    · exact frame_stored _ _ _ _ (fun _ h => SetUint_field h)
  · split
    · exact frame_same _ _ _ _
    · exact frame_stored _ _ _ _ (fun _ h => SetUint_field h)
  · split
    · exact frame_same _ _ _ _
    · exact frame_stored _ _ _ _ (fun _ h => SetFloat_field h)
  · split
    · exact frame_same _ _ _ _
    · exact frame_mark _ _ _ _

/-- The body of the loop of `loadEnviron` returns `nil` on a field the
command-line layer accepts, exported when it is of a supported kind. -/
theorem loadEnvironField_nil (L : Lib) (getenv : String → String) (i : Nat) (m : SetMap)
    (s : Slot) (h : s.field.kind.supported = true ∨ s.field.tag.aef = "-")
    (hexp : s.field.kind.supported = true → s.field.exported = true) :
    (loadEnvironField L getenv i m s).1 = .nil := by
  rw [loadEnvironField_eq]
  split
  · rfl
  · split
    · exact envAssign_nil L s m _ _ h hexp
    · rfl

/-- The body of the loop of `loadEnviron` keeps the description of the field
and adds at most the name of the field to the resolved set. -/
theorem loadEnvironField_frame (L : Lib) (getenv : String → String) (i : Nat) (m : SetMap)
    (s : Slot) : Frame s m (s.flagName L) (loadEnvironField L getenv i m s) := by
  rw [loadEnvironField_eq]
  split
  · exact frame_same _ _ _ _
  · split
    · exact envAssign_frame L s m _ _
    · exact frame_same _ _ _ _

/-! ### The command-line layer -/

/-- The field as `loadCommandlineFlags` leaves it when its flag is not given:
the defaults of the flags are written to the fields of the seven kinds. -/
theorem flagVar_nil {L : Lib} {G : FlagSet} {s : Slot} {i : Nat} {name usage : String} {v : Val} :
    (flagVar L G s i name usage v).2.2 = { s with val := v }
    ∧ ∀ fl ∈ (flagVar L G s i name usage v).2.1.formal,
        fl ∈ G.formal ∨ (fl.target = some i ∧ fl.name = name) := by
  unfold flagVar
  split
  · refine ⟨rfl, fun fl hfl => ?_⟩
    simp only [List.mem_append, List.mem_singleton] at hfl
    rcases hfl with h | h
    · exact Or.inl h
    · subst h; exact Or.inr ⟨rfl, rfl⟩
  · exact ⟨rfl, fun fl hfl => Or.inl hfl⟩

theorem registerField_slot (L : Lib) (i : Nat) (G : FlagSet) (s : Slot) :
    (registerField L i G s).2.2 = s.reset
      ∨ ((registerField L i G s).1 ≠ .nil ∧ (registerField L i G s).2.2 = s) := by
  unfold registerField Slot.reset
  rcases hk : s.field.kind <;> simp [hk, Kind.supported, Kind.zero, flagVar_nil.1] <;>
    (split <;> simp)

theorem registerField_nil (L : Lib) (i : Nat) (G : FlagSet) (s : Slot)
    (h : (registerField L i G s).1 = .nil) :
    (registerField L i G s).2.2 = s.reset
    ∧ (s.field.kind.supported = true ∨ s.field.tag.aef = "-") := by
  refine ⟨?_, ?_⟩
  · rcases registerField_slot L i G s with h1 | h1
    · exact h1
    · exact absurd h h1.1
  · revert h
    unfold registerField
    rcases hk : s.field.kind <;> simp [hk, Kind.supported] <;>
      (split <;> simp_all)

theorem registerField_flags (L : Lib) (i : Nat) (G : FlagSet) (s : Slot) :
    ∀ fl ∈ (registerField L i G s).2.1.formal,
      fl ∈ G.formal ∨ (fl.target = some i ∧ fl.name = s.flagName L) := by
  unfold registerField Slot.flagName
  rcases hk : s.field.kind <;> simp only [] <;>
    first
    | exact flagVar_nil.2
    | (split <;> exact fun fl hfl => Or.inl hfl)

theorem registerField_parsed (L : Lib) (i : Nat) (G : FlagSet) (s : Slot) :
    (registerField L i G s).2.1.parsed = G.parsed := by
  unfold registerField flagVar
  rcases hk : s.field.kind <;> simp only [] <;> split <;> rfl

theorem forall₂_eq_map {α β : Type} {f : α → β} {l : List α} {l2 : List β}
    (h : List.Forall₂ (fun a b => b = f a) l l2) : l2 = l.map f := by
  induction h with
  | nil => rfl
  | cons hab _ ih => simp [hab, ih]

theorem register_nil (L : Lib) (ss : List Slot) (i : Nat) (G : FlagSet)
    (h : (forEachField (registerField L) i ss G).1 = .nil) :
    (forEachField (registerField L) i ss G).2.2 = ss.map Slot.reset
    ∧ ∀ a ∈ ss, a.field.kind.supported = true ∨ a.field.tag.aef = "-" := by
  have h1 := forEachField_of_nil (registerField L) (fun _ => True) (fun _ _ _ _ => trivial)
    ss i G trivial h
  have h2 : List.Forall₂ (fun a b => b = a.reset
      ∧ (a.field.kind.supported = true ∨ a.field.tag.aef = "-"))
      ss (forEachField (registerField L) i ss G).2.2 := by
    refine h1.imp ?_
    rintro a b ⟨j, G0, -, hn, hb⟩
    have := registerField_nil L j G0 a hn
    exact ⟨by rw [← hb, this.1], this.2⟩
  refine ⟨forall₂_eq_map (h2.imp (fun _ _ hab => hab.1)), fun a ha => ?_⟩
  obtain ⟨j, hj⟩ := List.getElem?_of_mem ha
  obtain ⟨b, -, hb⟩ := forall₂_getElem? h2 j a hj
  exact hb.2

theorem register_flags (L : Lib) (ss : List Slot) (i : Nat) (G : FlagSet) :
    ∀ fl ∈ (forEachField (registerField L) i ss G).2.1.formal,
      fl ∈ G.formal
        ∨ ∃ j a, ss[j]? = some a ∧ fl.target = some (i + j) ∧ fl.name = a.flagName L := by
  induction ss generalizing i G with
  | nil => intro fl hfl; exact Or.inl (by simpa [forEachField] using hfl)
  | cons s rest ih =>
    intro fl hfl
    have hs := registerField_flags L i G s
    rcases hb : registerField L i G s with ⟨o, G1, s1⟩
    rw [hb] at hs
    have hhead : fl ∈ G1.formal → fl ∈ G.formal
        ∨ ∃ j a, (s :: rest)[j]? = some a ∧ fl.target = some (i + j) ∧ fl.name = a.flagName L := by
      intro h1
      rcases hs fl h1 with h2 | h2
      · exact Or.inl h2
      · exact Or.inr ⟨0, s, by simp, by simpa using h2.1, h2.2⟩
    by_cases ho : o = .nil
    · subst ho
      rw [forEachField_cons_nil _ hb] at hfl
      rcases ih (i + 1) G1 fl hfl with h1 | ⟨j, a, hj, ht, hn⟩
      · exact hhead h1
      · refine Or.inr ⟨j + 1, a, by simpa using hj, ?_, hn⟩
        rw [ht]; congr 1; omega
    · rw [forEachField_cons_stop _ hb ho] at hfl
      exact hhead hfl

theorem register_parsed (L : Lib) (ss : List Slot) (i : Nat) (G : FlagSet) :
    (forEachField (registerField L) i ss G).2.1.parsed = G.parsed :=
  (forEachField_rel (registerField L) (fun G0 => G0.parsed = G.parsed) (fun _ _ => True)
    (fun _ => trivial) ss
    (fun s _ j G0 h0 => ⟨(registerField_parsed L j G0 s).trans h0, trivial⟩) i G rfl).1

theorem assign_fields (v : Val) (i : Nat) (ss : List Slot) :
    (assign v i ss).map Slot.field = ss.map Slot.field := by
  induction ss generalizing i with
  | nil => cases i <;> rfl
  | cons s rest ih =>
    cases i with
    | zero => rfl
    | succ k => simp [assign, ih]

theorem assign_other (v : Val) (i j : Nat) (ss : List Slot) (h : j ≠ i) :
    (assign v i ss)[j]? = ss[j]? := by
  induction ss generalizing i j with
  | nil => cases i <;> rfl
  | cons s rest ih =>
    cases i with
    | zero =>
      cases j with
      | zero => exact absurd rfl h
      | succ k => simp [assign]
    | succ k =>
      cases j with
      | zero => simp [assign]
      | succ l => simp only [assign, List.getElem?_cons_succ]; exact ih k l (by omega)

theorem parseOne_some {L : Lib} {formal : List Flag} {ss ss1 : List Slot} {actual act1 : SetMap}
    {name value : String} (h : parseOne L formal ss actual name value = some (ss1, act1)) :
    ss1.map Slot.field = ss.map Slot.field ∧ act1 = actual.mark name
    ∧ ∀ j, (∀ fl ∈ formal, fl.target = some j → fl.name ≠ name) → ss1[j]? = ss[j]? := by
  unfold parseOne at h
  split at h
  · simp at h
  · next fl hfind =>
    split at h
    · simp at h
    · next v hv =>
      have hmem := List.mem_of_find?_eq_some hfind
      have hname : fl.name = name := by simpa using List.find?_some hfind
      split at h
      · next i hi =>
        simp only [Option.some.injEq, Prod.mk.injEq] at h
        obtain ⟨h1, h2⟩ := h
        subst h1 h2
        refine ⟨assign_fields _ _ _, rfl, fun j hj => assign_other _ _ _ _ ?_⟩
        intro hji
        subst hji
        exact hj fl hmem hi hname
      · simp only [Option.some.injEq, Prod.mk.injEq] at h
        obtain ⟨h1, h2⟩ := h
        subst h1 h2
        exact ⟨rfl, rfl, fun _ _ => rfl⟩

theorem parseArgs_some (L : Lib) (formal : List Flag) (args : List (String × String))
    (ss ss1 : List Slot) (actual act1 : SetMap)
    (h : parseArgs L formal args ss actual = some (ss1, act1)) :
    ss1.map Slot.field = ss.map Slot.field ∧ actual ⊆ act1
    ∧ ∀ j, (∀ fl ∈ formal, fl.target = some j → fl.name ∉ act1) → ss1[j]? = ss[j]? := by
  induction args generalizing ss actual with
  | nil =>
    simp only [parseArgs, Option.some.injEq, Prod.mk.injEq] at h
    obtain ⟨h1, h2⟩ := h
    subst h1 h2
    exact ⟨rfl, fun _ hx => hx, fun _ _ => rfl⟩
  | cons x rest ih =>
    obtain ⟨name, value⟩ := x
    simp only [parseArgs] at h
    split at h
    · simp at h
    · next ss2 act2 hone =>
      obtain ⟨hf, hsub, hidx⟩ := ih ss2 act2 h
      obtain ⟨hf1, hact, hidx1⟩ := parseOne_some hone
      subst hact
      refine ⟨hf.trans hf1, fun x hx => hsub (subset_mark _ _ hx), fun j hj => ?_⟩
      rw [hidx j hj]
      refine hidx1 j (fun fl hfl ht hn => hj fl hfl ht ?_)
      rw [hn]
      exact hsub (mem_mark.mpr (Or.inl rfl))

theorem reset_field (s : Slot) : s.reset.field = s.field := by
  unfold Slot.reset
  split <;> rfl

/-- What is known of the struct and of the resolved set when
`loadCommandlineFlags` returns `nil`. -/
theorem loadCommandlineFlags_nil (L : Lib) (W : World) (G G1 : FlagSet) (ss ss1 : List Slot)
    (m m1 : SetMap) (h : loadCommandlineFlags L W G ss m = (.nil, G1, ss1, m1)) :
    G.parsed = false ∧ G1.parsed = true
    ∧ ss1.map Slot.field = ss.map Slot.field
    ∧ (∀ a ∈ ss, a.field.kind.supported = true ∨ a.field.tag.aef = "-")
    ∧ m ⊆ m1
    ∧ ((∀ fl ∈ G.formal, fl.target = none) →
        ∀ (j : Nat) (a : Slot), ss[j]? = some a → a.flagName L ∉ m1 → ss1[j]? = some a.reset) := by
  unfold loadCommandlineFlags at h
  split at h
  · simp at h
  · next hp =>
    have hreg := register_nil L ss 0 G
    have hflags := register_flags L ss 0 G
    rcases hr : forEachField (registerField L) 0 ss G with ⟨o, Gr, ssr⟩
    rw [hr] at h hreg hflags
    by_cases ho : o = .nil
    · subst ho
      simp only at h
      obtain ⟨hssr, hok⟩ := hreg rfl
      simp only at hssr hflags
      rcases hparse : parseArgs L Gr.formal W.args ssr [] with _ | ⟨ss2, actual⟩
      · simp [hparse] at h
      · simp only [hparse, Prod.mk.injEq, true_and] at h
        obtain ⟨hG, hss, hm⟩ := h
        subst hG hss hm
        obtain ⟨hf, -, hidx⟩ := parseArgs_some L Gr.formal W.args ssr ss2 [] actual hparse
        refine ⟨by simpa using hp, rfl, ?_, hok, fun x hx => mem_foldl_mark.mpr (Or.inl hx), ?_⟩
        · rw [hf, hssr, List.map_map]
          exact List.map_congr_left (fun a _ => reset_field a)
        · intro hG j a hj hun
          rw [hidx j, hssr, List.getElem?_map, hj]
          · rfl
          · intro fl hfl ht hact
            rcases hflags fl hfl with h1 | ⟨k, b, hk, htk, hn⟩
            · rw [hG fl h1] at ht
              exact absurd ht (by simp)
            · rw [htk] at ht
              have hkj : k = j := by simpa using ht
              subst hkj
              rw [hj] at hk
              have hab : a = b := by simpa using hk
              subst hab
              exact hun (mem_foldl_mark.mpr (Or.inr (hn ▸ hact)))
    · exfalso
      revert h
      cases o <;> simp at ho ⊢

theorem envAssign_coerce (L : Lib) (s : Slot) (m : SetMap) (k v : String) (x : Val)
    (hexp : s.field.exported = true) (h : coerce L s.field.kind v = some x) :
    envAssign L s m k v = (.nil, m.mark k, { s with val := x }) := by
  unfold envAssign
  rcases hk : s.field.kind <;> rw [hk] at h <;> simp only [coerce] at h <;>
    first
    | (simp at h; done)
    | skip
  · obtain ⟨b, hb, rfl⟩ := Option.map_eq_some'.mp h
    simp [stored, Slot.SetBool, hk, hb, hexp]
  · obtain rfl : Val.str v = x := by simpa using h
    simp [stored, Slot.SetString, hk, hexp]
  · obtain ⟨b, hb, rfl⟩ := Option.map_eq_some'.mp h
    simp [stored, Slot.SetInt, hk, hb, hexp]
  · obtain ⟨b, hb, rfl⟩ := Option.map_eq_some'.mp h
    simp [stored, Slot.SetInt, hk, hb, hexp]
  · obtain ⟨b, hb, rfl⟩ := Option.map_eq_some'.mp h
    simp [stored, Slot.SetUint, hk, hb, hexp]
  · obtain ⟨b, hb, rfl⟩ := Option.map_eq_some'.mp h
    simp [stored, Slot.SetUint, hk, hb, hexp]
  · obtain ⟨b, hb, rfl⟩ := Option.map_eq_some'.mp h
    simp [stored, Slot.SetFloat, hk, hb, hexp]

theorem envLookup_of_variants (L : Lib) (getenv : String → String) (name v : String)
    (hsome : ∃ n ∈ [name, L.toUpper name, L.toLower name], getenv n = v)
    (hone : ∀ n ∈ [name, L.toUpper name, L.toLower name], getenv n = "" ∨ getenv n = v) :
    envLookup L getenv name = v := by
  have h1 := hone name (by simp)
  have h2 := hone (L.toUpper name) (by simp)
  have h3 := hone (L.toLower name) (by simp)
  unfold envLookup
  by_cases hv : v = ""
  · subst hv
    simp only [or_self] at h1 h2 h3
    simp [h1, h2, h3]
  · simp only [List.mem_cons, List.mem_singleton, List.not_mem_nil, or_false,
      exists_eq_or_imp, exists_eq_left] at hsome
    rcases h1 with h1 | h1
    · rcases h2 with h2 | h2
      · rcases h3 with h3 | h3
        · rcases hsome with h | h | h <;> simp_all
        · simp [h1, h2, h3]
      · simp [h1, h2, hv]
    · simp [h1, hv]

/-- The loop of `loadEnviron` returns `nil` on a struct the command-line layer
accepts, whose fields of a supported kind are exported. -/
theorem loadEnviron_nil (L : Lib) (getenv : String → String) (ss : List Slot) (m : SetMap)
    (h : ∀ a ∈ ss, a.field.kind.supported = true ∨ a.field.tag.aef = "-")
    (hexp : ∀ a ∈ ss, a.field.kind.supported = true → a.field.exported = true) :
    (loadEnviron L getenv ss m).1 = .nil := by
  unfold loadEnviron
  split
  · rfl
  · exact forEachField_nil _ (fun _ => True) ss
      (fun a ha i st _ => ⟨trivial,
        loadEnvironField_nil L getenv i st a (h a ha) (hexp a ha)⟩) 0 m trivial

/-- The loop of `loadEnviron` before a field whose name no earlier field
bears: the name is still absent from the resolved set. -/
theorem loadEnviron_prefix (L : Lib) (getenv : String → String) (pre : List Slot) (c : String)
    (hpre : ∀ a ∈ pre, a.flagName L ≠ c) (i : Nat) (m : SetMap) (hc : c ∉ m) :
    c ∉ (forEachField (loadEnvironField L getenv) i pre m).2.1 :=
  (forEachField_rel (loadEnvironField L getenv) (fun st => c ∉ st) (fun _ _ => True)
    (fun _ => trivial) pre
    (fun a ha j st hst => ⟨fun hx => by
        rcases (loadEnvironField_frame L getenv j st a).2.2 c hx with h1 | h1
        · exact hpre a ha h1.symm
        · exact hst h1, trivial⟩) i m hc).1

theorem loadEnviron_subset (L : Lib) (getenv : String → String) (ss : List Slot) (i : Nat)
    (m : SetMap) : m ⊆ (forEachField (loadEnvironField L getenv) i ss m).2.1 :=
  (forEachField_rel (loadEnvironField L getenv) (fun st => m ⊆ st) (fun _ _ => True)
    (fun _ => trivial) ss
    (fun a _ j st hst => ⟨fun _ hx => (loadEnvironField_frame L getenv j st a).2.1 (hst hx),
      trivial⟩) i m (fun _ hx => hx)).1

/-! ### The file layer -/

theorem loadFileKey_skip (L : Lib) (m : List (String × Iface)) (setMap : SetMap) (s : Slot)
    (c : String) (h : m.lookup c = none ∨ c ∈ setMap) :
    loadFileKey L m setMap s c = (.nil, setMap, s) := by
  unfold loadFileKey
  rcases h with h | h
  · rw [h]
  · split
    · rfl
    · rw [if_pos h]

theorem fileAssign_frame (L : Lib) (s : Slot) (setMap : SetMap) (c : String) (v : Iface) :
    Frame s setMap c (fileAssign L s setMap c v) := by
  unfold fileAssign
  split
  · exact frame_stored _ _ _ _ (fun _ h => SetBool_field h)
  · exact frame_stored _ _ _ _ (fun _ h => SetInt_field h)
  · exact frame_stored _ _ _ _ (fun _ h => SetInt_field h)
  · exact frame_stored _ _ _ _ (fun _ h => SetUint_field h)
  · exact frame_stored _ _ _ _ (fun _ h => SetUint_field h)
  · exact frame_stored _ _ _ _ (fun _ h => SetFloat_field h)
  · exact frame_stored _ _ _ _ (fun _ h => SetBytes_field h)
  · exact frame_stored _ _ _ _ (fun _ h => SetString_field h)
  · split
    · exact frame_same _ _ _ _
    · exact frame_mark _ _ _ _

theorem loadFileKey_frame (L : Lib) (m : List (String × Iface)) (setMap : SetMap) (s : Slot)
    (c : String) : Frame s setMap c (loadFileKey L m setMap s c) := by
  unfold loadFileKey
  split
  · exact frame_same _ _ _ _
  · split
    · exact frame_same _ _ _ _
    · exact fileAssign_frame _ _ _ _ _

theorem loadFileKeys_cons_nil {L : Lib} {m : List (String × Iface)} {c : String}
    {rest : List String} {setMap setMap1 : SetMap} {s s1 : Slot}
    (h : loadFileKey L m setMap s c = (.nil, setMap1, s1)) :
    loadFileKeys L m (c :: rest) setMap s = loadFileKeys L m rest setMap1 s1 := by
  simp [loadFileKeys, h]

theorem loadFileKeys_cons_stop {L : Lib} {m : List (String × Iface)} {c : String}
    {rest : List String} {setMap setMap1 : SetMap} {s s1 : Slot} {o : Outcome}
    (h : loadFileKey L m setMap s c = (o, setMap1, s1)) (ho : o ≠ .nil) :
    loadFileKeys L m (c :: rest) setMap s = (o, setMap1, s1) := by
  cases o <;> simp_all [loadFileKeys]

theorem loadFileKeys_frame (L : Lib) (m : List (String × Iface)) (keys : List String)
    (setMap : SetMap) (s : Slot) :
    (loadFileKeys L m keys setMap s).2.2.field = s.field
    ∧ setMap ⊆ (loadFileKeys L m keys setMap s).2.1
    ∧ ∀ x ∈ (loadFileKeys L m keys setMap s).2.1, x ∈ keys ∨ x ∈ setMap := by
  induction keys generalizing setMap s with
  | nil => exact ⟨rfl, fun _ h => h, fun _ h => Or.inr h⟩
  | cons c rest ih =>
    have hf := loadFileKey_frame L m setMap s c
    rcases hk : loadFileKey L m setMap s c with ⟨o, setMap1, s1⟩
    rw [hk] at hf
    obtain ⟨hf1, hf2, hf3⟩ := hf
    by_cases ho : o = .nil
    · subst ho
      rw [loadFileKeys_cons_nil hk]
      obtain ⟨h1, h2, h3⟩ := ih setMap1 s1
      refine ⟨h1.trans hf1, fun x hx => h2 (hf2 hx), fun x hx => ?_⟩
      rcases h3 x hx with h | h
      · exact Or.inl (List.mem_cons_of_mem _ h)
      · rcases hf3 x h with h | h
        · exact Or.inl (h ▸ List.mem_cons_self _ _)
        · exact Or.inr h
    · rw [loadFileKeys_cons_stop hk ho]
      refine ⟨hf1, hf2, fun x hx => ?_⟩
      rcases hf3 x hx with h | h
      · exact Or.inl (h ▸ List.mem_cons_self _ _)
      · exact Or.inr h

theorem loadFileKeys_skip (L : Lib) (m : List (String × Iface)) (keys : List String)
    (setMap : SetMap) (s : Slot) (h : ∀ c ∈ keys, m.lookup c = none ∨ c ∈ setMap) :
    loadFileKeys L m keys setMap s = (.nil, setMap, s) := by
  induction keys with
  | nil => rfl
  | cons c rest ih =>
    rw [loadFileKeys_cons_nil (loadFileKey_skip L m setMap s c (h c (List.mem_cons_self _ _)))]
    exact ih (fun k hk => h k (List.mem_cons_of_mem _ hk))

theorem loadFileField_frame (L : Lib) (m : List (String × Iface)) (i : Nat) (setMap : SetMap)
    (s : Slot) :
    (loadFileField L m i setMap s).2.2.field = s.field
    ∧ setMap ⊆ (loadFileField L m i setMap s).2.1
    ∧ ∀ x ∈ (loadFileField L m i setMap s).2.1, x ∈ s.candidates L ∨ x ∈ setMap :=
  loadFileKeys_frame L m _ setMap s

theorem loadFile_skip (L : Lib) (W : World) (ss : List Slot) (setMap : SetMap)
    (filePath : String) (h : filePath = "" ∨ setMap.length = ss.length) :
    loadFile L W ss setMap filePath = (.nil, setMap, ss, []) := by
  unfold loadFile
  rw [if_pos h]

theorem loadFile_unread (L : Lib) (W : World) (ss : List Slot) (setMap : SetMap)
    (filePath : String) (h : ¬ (filePath = "" ∨ setMap.length = ss.length))
    (hd : W.dumpFile (expandPath W.getenv filePath) = none) :
    loadFile L W ss setMap filePath = (.nil, setMap, ss, [expandPath W.getenv filePath]) := by
  unfold loadFile
  rw [if_neg h, hd]

theorem loadFile_unparsed (L : Lib) (W : World) (ss : List Slot) (setMap : SetMap)
    (filePath f : String) (h : ¬ (filePath = "" ∨ setMap.length = ss.length))
    (hd : W.dumpFile (expandPath W.getenv filePath) = some f) (hu : L.unmarshal f = none) :
    loadFile L W ss setMap filePath = (.nil, setMap, ss, [expandPath W.getenv filePath]) := by
  unfold loadFile
  rw [if_neg h, hd]
  simp only [hu]

theorem loadFile_parsed (L : Lib) (W : World) (ss : List Slot) (setMap : SetMap)
    (filePath f : String) (m : List (String × Iface))
    (h : ¬ (filePath = "" ∨ setMap.length = ss.length))
    (hd : W.dumpFile (expandPath W.getenv filePath) = some f) (hu : L.unmarshal f = some m) :
    loadFile L W ss setMap filePath
      = ((forEachField (loadFileField L m) 0 ss setMap).1,
         (forEachField (loadFileField L m) 0 ss setMap).2.1,
         (forEachField (loadFileField L m) 0 ss setMap).2.2,
         [expandPath W.getenv filePath]) := by
  unfold loadFile
  rw [if_neg h, hd]
  simp only [hu]

/-- `loadFile` leaves alone a field whose candidate names are either the
marked name `c` or absent from the document. -/
theorem loadFile_keeps (L : Lib) (W : World) (ss : List Slot) (setMap : SetMap)
    (filePath c : String) (t : Slot) (hc : c ∈ setMap)
    (hfile : ∀ f m, W.dumpFile (expandPath W.getenv filePath) = some f → L.unmarshal f = some m →
      ∀ k ∈ t.candidates L, k = c ∨ m.lookup k = none)
    (i : Nat) (hi : ss[i]? = some t) :
    (loadFile L W ss setMap filePath).2.2.1[i]? = some t := by
  by_cases hskip : filePath = "" ∨ setMap.length = ss.length
  · rw [loadFile_skip L W ss setMap filePath hskip]
    exact hi
  · rcases hd : W.dumpFile (expandPath W.getenv filePath) with _ | f
    · rw [loadFile_unread L W ss setMap filePath hskip hd]
      exact hi
    · rcases hu : L.unmarshal f with _ | m
      · rw [loadFile_unparsed L W ss setMap filePath f hskip hd hu]
        exact hi
      · rw [loadFile_parsed L W ss setMap filePath f m hskip hd hu]
        have hrel := (forEachField_rel (loadFileField L m) (fun st => c ∈ st)
          (fun a b => a = t → b = t) (fun _ h => h) ss
          (fun a _ j st hst => ⟨(loadFileField_frame L m j st a).2.1 hst, fun hat => by
            subst hat
            have : loadFileField L m j st a = (.nil, st, a) :=
              loadFileKeys_skip L m _ st a (fun k hk => by
                rcases hfile f m hd hu k hk with h | h
                · exact Or.inr (h ▸ hst)
                · exact Or.inl h)
            rw [this]⟩) 0 setMap hc).2
        obtain ⟨y, hy, hty⟩ := forall₂_getElem? hrel i t hi
        simp only [hy, hty rfl]

/-! ### Load -/

theorem flagName_congr (L : Lib) {a b : Slot} (h : a.field = b.field) :
    a.flagName L = b.flagName L := by
  unfold Slot.flagName
  rw [h]

theorem Load_of_nil (L : Lib) (W : World) (G G1 : FlagSet) (ss ss1 ss2 : List Slot)
    (m1 m2 : SetMap) (filePath : String)
    (hcli : loadCommandlineFlags L W G ss [] = (.nil, G1, ss1, m1))
    (henv : loadEnviron L W.getenv ss1 m1 = (.nil, m2, ss2)) :
    Load L W G ss filePath
      = ((loadFile L W ss2 m2 filePath).1, G1, (loadFile L W ss2 m2 filePath).2.2.1,
          (loadFile L W ss2 m2 filePath).2.2.2) := by
  simp only [Load, hcli, henv]

theorem fields_getElem? {ss ss1 : List Slot} (h : ss1.map Slot.field = ss.map Slot.field)
    (i : Nat) (s : Slot) (hi : ss[i]? = some s) :
    ∃ s1, ss1[i]? = some s1 ∧ s1.field = s.field := by
  have := congrArg (fun l => l[i]?) h
  simp only [List.getElem?_map, hi, Option.map_some'] at this
  rcases h1 : ss1[i]? with _ | s1
  · simp [h1] at this
  · simp only [h1, Option.map_some', Option.some.injEq] at this
    exact ⟨s1, rfl, this⟩

theorem fields_forall {ss ss1 : List Slot} (h : ss1.map Slot.field = ss.map Slot.field)
    (P : Field → Prop) (hP : ∀ a ∈ ss, P a.field) : ∀ a ∈ ss1, P a.field := by
  intro a ha
  have : a.field ∈ ss.map Slot.field := h ▸ List.mem_map_of_mem _ ha
  obtain ⟨b, hb, hba⟩ := List.mem_map.mp this
  rw [← hba]
  exact hP b hb

theorem Load_of_env (L : Lib) (W : World) (G G1 : FlagSet) (ss ss1 : List Slot) (m1 : SetMap)
    (filePath : String)
    (hcli : loadCommandlineFlags L W G ss [] = (.nil, G1, ss1, m1))
    (hne : (loadEnviron L W.getenv ss1 m1).1 ≠ .nil) :
    Load L W G ss filePath
      = ((loadEnviron L W.getenv ss1 m1).1, G1, (loadEnviron L W.getenv ss1 m1).2.2, []) := by
  rcases he : loadEnviron L W.getenv ss1 m1 with ⟨o, m2, ss2⟩
  rw [he] at hne
  simp only [Load, hcli, he]

/-- The environment layer on a field that is reached unresolved and whose
variable holds a text the coercer accepts. -/
theorem loadEnviron_value (L : Lib) (getenv : String → String) (ss : List Slot) (m : SetMap)
    (i : Nat) (s : Slot) (v : String) (x : Val)
    (hok : ∀ a ∈ ss, a.field.kind.supported = true ∨ a.field.tag.aef = "-")
    (hexp : ∀ a ∈ ss, a.field.kind.supported = true → a.field.exported = true)
    (hcount : m.length ≠ ss.length)
    (hi : ss[i]? = some s)
    (hunset : s.flagName L ∉ m)
    (hearlier : ∀ (j : Nat) (t : Slot), j < i → ss[j]? = some t → t.flagName L ≠ s.flagName L)
    (hv : envLookup L getenv (replaceDash (s.flagName L)) = v) (hne : v ≠ "")
    (hx : coerce L s.field.kind v = some x) :
    (loadEnviron L getenv ss m).1 = .nil
    ∧ s.flagName L ∈ (loadEnviron L getenv ss m).2.1
    ∧ (loadEnviron L getenv ss m).2.2[i]? = some { s with val := x } := by
  refine ⟨loadEnviron_nil L getenv ss m hok hexp, ?_⟩
  have hsup : s.field.kind.supported = true := by
    revert hx
    cases s.field.kind <;> simp [coerce, Kind.supported]
  obtain ⟨pre, post, hsplit, hlen⟩ := split_at_index ss i s hi
  have hpre : ∀ a ∈ pre, a.flagName L ≠ s.flagName L := by
    intro a ha
    obtain ⟨j, hj⟩ := List.getElem?_of_mem ha
    have hjlt : j < pre.length := by
      by_contra hge
      rw [List.getElem?_eq_none (by omega)] at hj
      exact absurd hj (by simp)
    refine hearlier j a (hlen ▸ hjlt) ?_
    rw [hsplit, List.getElem?_append_left hjlt]
    exact hj
  have hprenil : (forEachField (loadEnvironField L getenv) 0 pre m).1 = .nil :=
    forEachField_nil _ (fun _ => True) pre
      (fun a ha j st _ => ⟨trivial, loadEnvironField_nil L getenv j st a
        (hok a (by rw [hsplit]; exact List.mem_append_left _ ha))
        (hexp a (by rw [hsplit]; exact List.mem_append_left _ ha))⟩) 0 m trivial
  have hmpre := loadEnviron_prefix L getenv pre (s.flagName L) hpre 0 m hunset
  have hbody : loadEnvironField L getenv (0 + pre.length)
      (forEachField (loadEnvironField L getenv) 0 pre m).2.1 s
      = (.nil, (forEachField (loadEnvironField L getenv) 0 pre m).2.1.mark (s.flagName L),
          { s with val := x }) := by
    rw [loadEnvironField_eq, if_neg hmpre, hv, if_pos hne]
    exact envAssign_coerce L s _ _ v x (hexp s (List.getElem?_mem hi) hsup) hx
  have hloop : loadEnviron L getenv ss m = forEachField (loadEnvironField L getenv) 0 ss m := by
    unfold loadEnviron
    rw [if_neg hcount]
  rw [hloop, hsplit, forEachField_append, if_pos hprenil, forEachField_cons_nil _ hbody]
  refine ⟨loadEnviron_subset L getenv post _ _ (mem_mark.mpr (Or.inl rfl)), ?_⟩
  have hl := forEachField_length (loadEnvironField L getenv) pre 0 m
  simp only
  rw [List.getElem?_append_right (by omega)]
  have : i - (forEachField (loadEnvironField L getenv) 0 pre m).2.2.length = 0 := by omega
  rw [this]
  simp

/-- The environment layer inside `Load`.  When the command-line layer returns
`nil` without having marked as many names as the struct has fields, a field it
left unset, whose
name no earlier field bears and whose environment variable holds, under the
variants that are set, one text the coercer accepts, holds the coerced value
when `Load` returns, provided the fields of a supported kind are exported and
the document of the file holds the field under no candidate name other than its
canonical name. -/
theorem Load_environment_value (L : Lib) (W : World) (G G1 : FlagSet) (ss ss1 : List Slot)
    (m1 : SetMap) (filePath : String) (i : Nat) (s : Slot) (v : String) (x : Val)
    (hcli : loadCommandlineFlags L W G ss [] = (.nil, G1, ss1, m1))
    (hexp : ∀ a ∈ ss, a.field.kind.supported = true → a.field.exported = true)
    (hcount : m1.length ≠ ss.length)
    (hi : ss[i]? = some s)
    (hunset : s.flagName L ∉ m1)
    (hearlier : ∀ (j : Nat) (t : Slot), j < i → ss[j]? = some t → t.flagName L ≠ s.flagName L)
    (hne : v ≠ "")
    (hsome : ∃ n ∈ [replaceDash (s.flagName L), L.toUpper (replaceDash (s.flagName L)),
      L.toLower (replaceDash (s.flagName L))], W.getenv n = v)
    (hone : ∀ n ∈ [replaceDash (s.flagName L), L.toUpper (replaceDash (s.flagName L)),
      L.toLower (replaceDash (s.flagName L))], W.getenv n = "" ∨ W.getenv n = v)
    (hx : coerce L s.field.kind v = some x)
    (hfile : ∀ f m, W.dumpFile (expandPath W.getenv filePath) = some f → L.unmarshal f = some m →
      ∀ c ∈ s.candidates L, c = s.flagName L ∨ m.lookup c = none) :
    ((Load L W G ss filePath).2.2.1[i]?).map Slot.val = some x := by
  obtain ⟨-, -, hfields, hok, -, -⟩ := loadCommandlineFlags_nil L W G G1 ss ss1 [] m1 hcli
  obtain ⟨s1, hi1, hs1⟩ := fields_getElem? hfields i s hi
  have hlen : ss1.length = ss.length := by
    simpa using congrArg List.length hfields
  have hok1 : ∀ a ∈ ss1, a.field.kind.supported = true ∨ a.field.tag.aef = "-" :=
    fields_forall hfields (fun f => f.kind.supported = true ∨ f.tag.aef = "-") hok
  have hexp1 : ∀ a ∈ ss1, a.field.kind.supported = true → a.field.exported = true :=
    fields_forall hfields (fun f => f.kind.supported = true → f.exported = true) hexp
  have hname : s1.flagName L = s.flagName L := flagName_congr L hs1
  have hearlier1 : ∀ (j : Nat) (t : Slot), j < i → ss1[j]? = some t →
      t.flagName L ≠ s1.flagName L := by
    intro j t hj ht
    obtain ⟨t0, ht0, hft⟩ := fields_getElem? hfields.symm j t ht
    rw [hname, flagName_congr L hft.symm]
    exact hearlier j t0 hj ht0
  obtain ⟨henv1, henv2, henv3⟩ := loadEnviron_value L W.getenv ss1 m1 i s1 v x hok1 hexp1
    (by rw [hlen]; exact hcount) hi1 (by rw [hname]; exact hunset) hearlier1
    (by rw [hname]; exact envLookup_of_variants L W.getenv _ v hsome hone) hne
    (by rw [hs1]; exact hx)
  rw [Load_of_nil L W G G1 ss ss1 _ m1 _ filePath hcli (Prod.ext henv1 rfl)]
  simp only
  rw [loadFile_keeps L W _ _ filePath (s.flagName L) { s1 with val := x } (hname ▸ henv2)
    (fun f m hd hu c hc => hfile f m hd hu c (by
      simpa [Slot.candidates, hs1] using hc)) i henv3]
  rfl

/-- The theorem above at the struct of the example, with `API_KEY=from-env` and
no file: `APIKey` ends with `from-env`. -/
theorem Load_environment_value_example :
    ((Load goLib worldEnvOnly freshFlags mailgunArgs "~/.mailgun.json").2.2.1[1]?).map Slot.val
      = some (.str "from-env") := by
  have hcli : loadCommandlineFlags goLib worldEnvOnly freshFlags mailgunArgs []
      = (.nil, (loadCommandlineFlags goLib worldEnvOnly freshFlags mailgunArgs []).2.1,
          mailgunArgs, []) := by decide
  have hearlier : ∀ (j : Nat) (t : Slot), j < 1 → mailgunArgs[j]? = some t →
      t.flagName goLib ≠ (stringField "APIKey" "api-key" "api_key").flagName goLib := by
    intro j t hj ht
    obtain rfl : j = 0 := by omega
    have h0 : mailgunArgs[0]? = some (mailgunArgs.get ⟨0, by decide⟩) := rfl
    rw [h0] at ht
    obtain rfl := Option.some.inj ht
    decide
  exact Load_environment_value goLib worldEnvOnly freshFlags _ mailgunArgs mailgunArgs []
    "~/.mailgun.json" 1 (stringField "APIKey" "api-key" "api_key") "from-env" (.str "from-env")
    hcli (by decide) (by decide) (by decide) (by decide) hearlier (by decide) (by decide) (by decide)
    (by decide) (fun f _ hd => Option.noConfusion (show none = some f from hd))

theorem fileAssign_takes (L : Lib) (s : Slot) (setMap : SetMap) (c : String) (v : Iface)
    (h : s.field.takes v = true) :
    (fileAssign L s setMap c v).1 = .nil ∧ c ∈ (fileAssign L s setMap c v).2.1 := by
  have hc : c ∈ setMap.mark c := mem_mark.mpr (Or.inl rfl)
  cases v <;> simp only [Field.takes, Bool.and_eq_true, decide_eq_true_eq, List.mem_cons,
    List.mem_singleton, List.not_mem_nil, or_false] at h <;> unfold fileAssign <;> simp only []
  · simp [h, hc]
  · simp [stored, Slot.SetBool, h.1, h.2, hc]
  · obtain ⟨he, h | h | h | h | h⟩ := h <;> simp [stored, Slot.SetInt, h, he, hc]
  · obtain ⟨he, h | h | h | h | h⟩ := h <;> simp [stored, Slot.SetInt, h, he, hc]
  · obtain ⟨he, h | h | h | h | h | h⟩ := h <;> simp [stored, Slot.SetUint, h, he, hc]
  · obtain ⟨he, h | h | h | h | h | h⟩ := h <;> simp [stored, Slot.SetUint, h, he, hc]
  · obtain ⟨he, h | h⟩ := h <;> simp [stored, Slot.SetFloat, h, he, hc]
  · simp [stored, Slot.SetBytes, h.1, h.2, hc]
  · simp [stored, Slot.SetString, h.1, h.2, hc]
  · simp [h, hc]
  · simp [h, hc]

/-- A field that takes a JSON boolean, number or string of its own kind is
exported. -/
theorem takes_exported {f : Field} {v : Iface} {x : Val} (hval : jsonValue f.kind v = some x)
    (h : f.takes v = true) : f.exported = true := by
  cases v <;> simp only [Field.takes, Bool.and_eq_true] at h <;>
    first
    | exact h.1
    | (exfalso; revert hval; cases f.kind <;> simp [jsonValue])

theorem fileAssign_jsonValue (L : Lib) (s : Slot) (setMap : SetMap) (c : String) (v : Iface)
    (x : Val) (hexp : s.field.exported = true) (h : jsonValue s.field.kind v = some x) :
    fileAssign L s setMap c v = (.nil, setMap.mark c, { s with val := x }) := by
  rcases hk : s.field.kind <;> rw [hk] at h <;> cases v <;> simp only [jsonValue] at h <;>
    first
    | (simp at h; done)
    | skip
  all_goals
    obtain rfl := Option.some.inj h
    unfold fileAssign
    simp [stored, Slot.SetBool, Slot.SetFloat, Slot.SetString, hk, hexp]

theorem loadFileKey_takes (L : Lib) (m : List (String × Iface)) (setMap : SetMap) (s : Slot)
    (c : String) (h : ∀ v, m.lookup c = some v → s.field.takes v = true) :
    (loadFileKey L m setMap s c).1 = .nil
    ∧ (m.lookup c = none ∨ c ∈ (loadFileKey L m setMap s c).2.1) := by
  unfold loadFileKey
  rcases hl : m.lookup c with _ | v
  · exact ⟨rfl, Or.inl rfl⟩
  · simp only
    split
    · next hin => exact ⟨rfl, Or.inr hin⟩
    · exact ⟨(fileAssign_takes L s setMap c v (h v hl)).1,
        Or.inr (fileAssign_takes L s setMap c v (h v hl)).2⟩

theorem loadFileKeys_takes (L : Lib) (m : List (String × Iface)) (keys : List String)
    (setMap : SetMap) (s : Slot)
    (h : ∀ c ∈ keys, ∀ v, m.lookup c = some v → s.field.takes v = true) :
    (loadFileKeys L m keys setMap s).1 = .nil := by
  induction keys generalizing setMap s with
  | nil => rfl
  | cons c rest ih =>
    have h1 := (loadFileKey_takes L m setMap s c (h c (List.mem_cons_self _ _))).1
    have hf := (loadFileKey_frame L m setMap s c).1
    rcases hk : loadFileKey L m setMap s c with ⟨o, setMap1, s1⟩
    rw [hk] at h1 hf
    simp only at h1 hf
    subst h1
    rw [loadFileKeys_cons_nil hk]
    exact ih setMap1 s1 (fun k hk v hv => hf ▸ h k (List.mem_cons_of_mem _ hk) v hv)

/-- The body of the loop of `loadFile` on a field whose json-tag name is an
unmarked key of the document holding a value of the type of the field. -/
theorem loadFileField_json (L : Lib) (m : List (String × Iface)) (i : Nat) (st : SetMap)
    (s : Slot) (v : Iface) (x : Val)
    (hjson : m.lookup s.field.tag.json = some v)
    (hval : jsonValue s.field.kind v = some x)
    (hun : s.field.tag.json ∉ st)
    (htakes : ∀ c ∈ s.candidates L, ∀ w, m.lookup c = some w → s.field.takes w = true)
    (hlow : L.toLower s.field.name = s.field.tag.json ∨ L.toLower s.field.name = s.field.tag.aef
      ∨ m.lookup (L.toLower s.field.name) = none) :
    (loadFileField L m i st s).1 = .nil
    ∧ (loadFileField L m i st s).2.2 = { s with val := x } := by
  have hexp : s.field.exported = true :=
    takes_exported hval (htakes _ (by simp [Slot.candidates]) v hjson)
  unfold loadFileField
  have ht1 := loadFileKey_takes L m st s s.field.tag.aef
    (htakes _ (by simp [Slot.candidates]))
  have hf1 := loadFileKey_frame L m st s s.field.tag.aef
  rcases hk1 : loadFileKey L m st s s.field.tag.aef with ⟨o1, st1, s1⟩
  rw [hk1] at ht1 hf1
  obtain ⟨ho1, hmark1⟩ := ht1
  obtain ⟨hfield1, hsub1, hnew1⟩ := hf1
  simp only at ho1 hmark1 hfield1 hsub1 hnew1
  subst ho1
  rw [loadFileKeys_cons_nil hk1]
  by_cases haj : s.field.tag.aef = s.field.tag.json
  · -- the aef tag and the json tag are the same key
    have hk1' : loadFileKey L m st s s.field.tag.aef
        = (.nil, st.mark s.field.tag.json, { s with val := x }) := by
      rw [haj]
      unfold loadFileKey
      rw [hjson]
      simp only [if_neg hun]
      exact fileAssign_jsonValue L s st _ v x hexp hval
    rw [hk1] at hk1'
    simp only [Prod.mk.injEq, true_and] at hk1'
    obtain ⟨hst1, hs1⟩ := hk1'
    subst hst1 hs1
    have hin : s.field.tag.json ∈ st.mark s.field.tag.json := mem_mark.mpr (Or.inl rfl)
    rw [loadFileKeys_skip L m _ _ _ (fun c hc => by
      simp only [List.mem_cons, List.mem_singleton, List.not_mem_nil, or_false] at hc
      rcases hc with hc | hc
      · exact Or.inr (hc ▸ hin)
      · rcases hlow with h | h | h
        · exact Or.inr (hc ▸ h ▸ hin)
        · exact Or.inr (hc ▸ h ▸ haj ▸ hin)
        · exact Or.inl (hc ▸ h))]
    exact ⟨rfl, rfl⟩
  · have hun1 : s.field.tag.json ∉ st1 := by
      intro hin
      rcases hnew1 _ hin with h | h
      · exact haj h.symm
      · exact hun h
    have hk2 : loadFileKey L m st1 s1 s.field.tag.json
        = (.nil, st1.mark s.field.tag.json, { s1 with val := x }) := by
      unfold loadFileKey
      rw [hjson]
      simp only [if_neg hun1]
      exact fileAssign_jsonValue L s1 st1 _ v x (by rw [hfield1]; exact hexp)
        (by rw [hfield1]; exact hval)
    rw [loadFileKeys_cons_nil hk2]
    have hin : s.field.tag.json ∈ st1.mark s.field.tag.json := mem_mark.mpr (Or.inl rfl)
    rw [loadFileKeys_skip L m _ _ _ (fun c hc => by
      simp only [List.mem_singleton] at hc
      rcases hlow with h | h | h
      · exact Or.inr (hc ▸ h ▸ hin)
      · rcases hmark1 with h1 | h1
        · exact Or.inl (hc ▸ h ▸ h1)
        · exact Or.inr (hc ▸ h ▸ subset_mark _ _ h1)
      · exact Or.inl (hc ▸ h))]
    refine ⟨rfl, ?_⟩
    simp only
    rw [hfield1]

theorem loadFileField_nil (L : Lib) (m : List (String × Iface)) (i : Nat) (st : SetMap)
    (s : Slot) (h : ∀ c ∈ s.candidates L, ∀ w, m.lookup c = some w → s.field.takes w = true) :
    (loadFileField L m i st s).1 = .nil :=
  loadFileKeys_takes L m _ st s h

theorem candidates_congr (L : Lib) {a b : Slot} (h : a.field = b.field) :
    a.candidates L = b.candidates L := by
  unfold Slot.candidates
  rw [h]

theorem forEachField_fields {σ : Type} (body : Nat → σ → Slot → Outcome × σ × Slot)
    (hbody : ∀ i st s, (body i st s).2.2.field = s.field) (ss : List Slot) (i : Nat) (st : σ) :
    (forEachField body i ss st).2.2.map Slot.field = ss.map Slot.field := by
  have h := (forEachField_rel body (fun _ => True) (fun a b => b.field = a.field)
    (fun _ => rfl) ss (fun s _ j st0 _ => ⟨trivial, hbody j st0 s⟩) i st trivial).2
  have h2 : List.Forall₂ (fun a b => b = a.field) ss
      ((forEachField body i ss st).2.2.map Slot.field) :=
    List.forall₂_map_right_iff.mpr h
  exact forall₂_eq_map h2

theorem loadEnviron_fields (L : Lib) (getenv : String → String) (ss : List Slot) (m : SetMap) :
    (loadEnviron L getenv ss m).2.2.map Slot.field = ss.map Slot.field := by
  unfold loadEnviron
  split
  · rfl
  · exact forEachField_fields _ (fun i st s => (loadEnvironField_frame L getenv i st s).1) ss 0 m

/-- The loop of `loadFile` on a document every field can take: it returns `nil`,
and a field whose json-tag name is an unmarked key of the document, not a
candidate name of an earlier field, ends with the value under that key. -/
theorem loadFile_loop_json (L : Lib) (m : List (String × Iface)) (ss : List Slot) (st : SetMap)
    (i : Nat) (s : Slot) (v : Iface) (x : Val)
    (htakes : ∀ t ∈ ss, ∀ c ∈ t.candidates L, ∀ w, m.lookup c = some w → t.field.takes w = true)
    (hi : ss[i]? = some s)
    (hjson : m.lookup s.field.tag.json = some v)
    (hval : jsonValue s.field.kind v = some x)
    (hun : s.field.tag.json ∉ st)
    (hearlier : ∀ (j : Nat) (t : Slot), j < i → ss[j]? = some t →
      s.field.tag.json ∉ t.candidates L)
    (hlow : L.toLower s.field.name = s.field.tag.json ∨ L.toLower s.field.name = s.field.tag.aef
      ∨ m.lookup (L.toLower s.field.name) = none) :
    (forEachField (loadFileField L m) 0 ss st).1 = .nil
    ∧ (forEachField (loadFileField L m) 0 ss st).2.2[i]? = some { s with val := x } := by
  have hnil : ∀ (l : List Slot), (∀ t ∈ l, t ∈ ss) → ∀ (k : Nat) (st0 : SetMap),
      (forEachField (loadFileField L m) k l st0).1 = .nil := fun l hl k st0 =>
    forEachField_nil _ (fun _ => True) l
      (fun a ha j st1 _ => ⟨trivial, loadFileField_nil L m j st1 a (htakes a (hl a ha))⟩)
      k st0 trivial
  refine ⟨hnil ss (fun _ h => h) 0 st, ?_⟩
  obtain ⟨pre, post, hsplit, hlen⟩ := split_at_index ss i s hi
  have hpre : ∀ a ∈ pre, s.field.tag.json ∉ a.candidates L := by
    intro a ha
    obtain ⟨j, hj⟩ := List.getElem?_of_mem ha
    have hjlt : j < pre.length := by
      by_contra hge
      rw [List.getElem?_eq_none (by omega)] at hj
      exact absurd hj (by simp)
    refine hearlier j a (hlen ▸ hjlt) ?_
    rw [hsplit, List.getElem?_append_left hjlt]
    exact hj
  have hprenil := hnil pre (fun t ht => by rw [hsplit]; exact List.mem_append_left _ ht) 0 st
  have hstpre : s.field.tag.json ∉ (forEachField (loadFileField L m) 0 pre st).2.1 :=
    (forEachField_rel (loadFileField L m) (fun st0 => s.field.tag.json ∉ st0) (fun _ _ => True)
      (fun _ => trivial) pre
      (fun a ha j st0 hst0 => ⟨fun hx => by
          rcases (loadFileField_frame L m j st0 a).2.2 _ hx with h1 | h1
          · exact hpre a ha h1
          · exact hst0 h1, trivial⟩) 0 st hun).1
  have hbody := loadFileField_json L m (0 + pre.length)
    (forEachField (loadFileField L m) 0 pre st).2.1 s v x hjson hval hstpre
    (htakes s (List.getElem?_mem hi)) hlow
  rcases hq : loadFileField L m (0 + pre.length)
    (forEachField (loadFileField L m) 0 pre st).2.1 s with ⟨o, st1, s1⟩
  rw [hq] at hbody
  obtain ⟨ho, hs1⟩ := hbody
  simp only at ho hs1
  subst ho hs1
  rw [hsplit, forEachField_append, if_pos hprenil, forEachField_cons_nil _ hq]
  have hl := forEachField_length (loadFileField L m) pre 0 st
  simp only
  rw [List.getElem?_append_right (by omega)]
  have : i - (forEachField (loadFileField L m) 0 pre st).2.2.length = 0 := by omega
  rw [this]
  simp

/-- On a field of kind int, int64, uint, uint64 or float64 whose text does not
parse, the switch of `loadEnviron` returns `nil` and leaves the field and the
resolved set unchanged. -/
theorem envAssign_parse_failure (L : Lib) (s : Slot) (m : SetMap) (k v : String)
    (h : (s.field.kind ∈ [Kind.int, .int64] ∧ L.parseInt v = none)
      ∨ (s.field.kind ∈ [Kind.uint, .uint64] ∧ L.parseUint v = none)
      ∨ (s.field.kind = .float64 ∧ L.parseFloat v = none)) :
    envAssign L s m k v = (.nil, m, s) := by
  unfold envAssign
  simp only [List.mem_cons, List.mem_singleton, List.not_mem_nil, or_false] at h
  rcases h with ⟨hk | hk, hp⟩ | ⟨hk | hk, hp⟩ | ⟨hk, hp⟩ <;> simp [hk, hp]

theorem forEachField_id {σ : Type} (body : Nat → σ → Slot → Outcome × σ × Slot)
    (ss : List Slot) (st : σ) (h : ∀ s ∈ ss, ∀ i, body i st s = (.nil, st, s)) (i : Nat) :
    forEachField body i ss st = (.nil, st, ss) := by
  induction ss generalizing i with
  | nil => rfl
  | cons s rest ih =>
    rw [forEachField_cons_nil body (h s (List.mem_cons_self _ _) i),
      ih (fun t ht => h t (List.mem_cons_of_mem _ ht))]

theorem reset_of_zero (s : Slot) (h : s.val = s.field.kind.zero) : s.reset = s := by
  unfold Slot.reset
  split
  · rw [← h]
  · rfl

/-- `loadEnviron` changes nothing when no field finds a text in the
environment. -/
theorem loadEnviron_empty (L : Lib) (getenv : String → String) (ss : List Slot) (m : SetMap)
    (h : ∀ s ∈ ss, envLookup L getenv (replaceDash (s.flagName L)) = "") :
    loadEnviron L getenv ss m = (.nil, m, ss) := by
  unfold loadEnviron
  split
  · rfl
  · refine forEachField_id _ ss m (fun s hs i => ?_) 0
    rw [loadEnvironField_eq, h s hs]
    simp

/-- `loadFile` is a no-op returning `nil` when the file cannot be read or its
content is not a JSON object. -/
theorem loadFile_absorbs (L : Lib) (W : World) (ss : List Slot) (setMap : SetMap)
    (filePath : String)
    (hfile : W.dumpFile (expandPath W.getenv filePath) = none
      ∨ ∃ f, W.dumpFile (expandPath W.getenv filePath) = some f ∧ L.unmarshal f = none) :
    (loadFile L W ss setMap filePath).1 = .nil
    ∧ (loadFile L W ss setMap filePath).2.1 = setMap
    ∧ (loadFile L W ss setMap filePath).2.2.1 = ss := by
  by_cases hskip : filePath = "" ∨ setMap.length = ss.length
  · rw [loadFile_skip L W ss setMap filePath hskip]
    exact ⟨rfl, rfl, rfl⟩
  · rcases hfile with hd | ⟨f, hd, hu⟩
    · rw [loadFile_unread L W ss setMap filePath hskip hd]
      exact ⟨rfl, rfl, rfl⟩
    · rw [loadFile_unparsed L W ss setMap filePath f hskip hd hu]
      exact ⟨rfl, rfl, rfl⟩

/-! ### Unexported fields -/

/-- Every setter panics on an unexported field. -/
theorem setters_unexported (L : Lib) (s : Slot) (h : s.field.exported = false) :
    (∀ x, s.SetBool x = none) ∧ (∀ x, s.SetInt L x = none) ∧ (∀ x, s.SetUint L x = none)
    ∧ (∀ x, s.SetFloat L x = none) ∧ (∀ x, s.SetBytes x = none) ∧ (∀ x, s.SetString x = none) := by
  simp [Slot.SetBool, Slot.SetInt, Slot.SetUint, Slot.SetFloat, Slot.SetBytes, Slot.SetString, h]

/-- An unexported string field that finds a text in the environment, or a
string under its json-tag name in the file: `SetString` panics. -/
theorem unexported_string_panics :
    loadEnviron goLib (environ [("DONE", "x")]) secretArgs []
      = (.panic, [], secretArgs)
    ∧ (loadFile goLibDocs (worldFile docDone) secretArgs [] "~/.mailgun.json").1 = .panic := by
  decide

/-! ### The environment layer around one field -/

theorem mem_take_of_getElem? {α : Type} {l : List α} {i j : Nat} {x : α} (hj : j < i)
    (h : l[j]? = some x) : x ∈ l.take i :=
  List.getElem?_mem ((List.getElem?_take_of_lt hj).trans h)

theorem stored_slot (s : Slot) (m m1 : SetMap) (k k1 : String) (r : Option Slot) :
    (stored s m k r).2.2 = (stored s m1 k1 r).2.2 := by
  cases r <;> rfl

/-- What the switch of `loadEnviron` leaves in the field does not depend on the
resolved set nor on the name to mark. -/
theorem envAssign_slot (L : Lib) (s : Slot) (m m1 : SetMap) (k k1 v : String) :
    (envAssign L s m k v).2.2 = (envAssign L s m1 k1 v).2.2 := by
  rcases hk : s.field.kind <;> simp only [envAssign, hk] <;>
    first
    | exact stored_slot _ _ _ _ _ _
    | (cases L.parseInt v <;> first | rfl | exact stored_slot _ _ _ _ _ _)
    | (cases L.parseUint v <;> first | rfl | exact stored_slot _ _ _ _ _ _)
    | (cases L.parseFloat v <;> first | rfl | exact stored_slot _ _ _ _ _ _)
    | (split <;> rfl)

/-- The environment layer marks no name whose three lookups are empty. -/
theorem loadEnviron_unmarked (L : Lib) (getenv : String → String) (ss : List Slot) (m : SetMap)
    (c : String) (hc : c ∉ m) (hempty : envLookup L getenv (replaceDash c) = "") :
    c ∉ (loadEnviron L getenv ss m).2.1 := by
  unfold loadEnviron
  split
  · exact hc
  · exact (forEachField_rel (loadEnvironField L getenv) (fun st => c ∉ st) (fun _ _ => True)
      (fun _ => trivial) ss
      (fun a _ j st hst => ⟨fun hx => by
          rcases (loadEnvironField_frame L getenv j st a).2.2 c hx with h1 | h1
          · rw [loadEnvironField_eq] at hx
            split at hx
            · exact hst hx
            · rw [← h1, hempty] at hx
              exact hst (by simpa using hx)
          · exact hst h1, trivial⟩) 0 m hc).1

/-- The loop of `loadEnviron` gets to a field whose name is not in the resolved
set and is borne by no earlier field, every earlier field being one its switch
accepts: the field is then as the body of the loop leaves it, and what the body
has marked stays marked. -/
theorem loadEnviron_reach (L : Lib) (getenv : String → String) (ss : List Slot) (m : SetMap)
    (i : Nat) (s : Slot)
    (hcount : m.length ≠ ss.length) (hi : ss[i]? = some s) (hunset : s.flagName L ∉ m)
    (hearlier : ∀ t ∈ ss.take i, t.flagName L ≠ s.flagName L
      ∧ ((t.field.kind.supported = true ∧ t.field.exported = true)
        ∨ (t.field.kind.supported = false ∧ t.field.tag.aef = "-"))) :
    ∃ m1 : SetMap, s.flagName L ∉ m1
      ∧ (loadEnviron L getenv ss m).2.2[i]? = some (loadEnvironField L getenv i m1 s).2.2
      ∧ (loadEnvironField L getenv i m1 s).2.1 ⊆ (loadEnviron L getenv ss m).2.1 := by
  obtain ⟨pre, post, hsplit, hlen⟩ := split_at_index ss i s hi
  have htake : ss.take i = pre := by
    rw [hsplit]
    exact List.take_left' hlen
  rw [htake] at hearlier
  have hprenil : (forEachField (loadEnvironField L getenv) 0 pre m).1 = .nil :=
    forEachField_nil _ (fun _ => True) pre
      (fun a ha j st _ => ⟨trivial, loadEnvironField_nil L getenv j st a
        ((hearlier a ha).2.elim (fun h => Or.inl h.1) (fun h => Or.inr h.2))
        (fun hsup => (hearlier a ha).2.elim (fun h => h.2)
          (fun h => absurd hsup (by rw [h.1]; exact Bool.noConfusion)))⟩) 0 m trivial
  have hmpre := loadEnviron_prefix L getenv pre (s.flagName L)
    (fun a ha => (hearlier a ha).1) 0 m hunset
  refine ⟨(forEachField (loadEnvironField L getenv) 0 pre m).2.1, hmpre, ?_⟩
  have hloop : loadEnviron L getenv ss m = forEachField (loadEnvironField L getenv) 0 ss m := by
    unfold loadEnviron
    rw [if_neg hcount]
  have hl := forEachField_length (loadEnvironField L getenv) pre 0 m
  rcases hq : loadEnvironField L getenv (0 + pre.length)
    (forEachField (loadEnvironField L getenv) 0 pre m).2.1 s with ⟨o, st1, s1⟩
  have hq2 : loadEnvironField L getenv i (forEachField (loadEnvironField L getenv) 0 pre m).2.1 s
      = (o, st1, s1) := hq
  rw [hloop, hsplit, forEachField_append, if_pos hprenil, hq2]
  have hidx : i - (forEachField (loadEnvironField L getenv) 0 pre m).2.2.length = 0 := by omega
  by_cases ho : o = .nil
  · subst ho
    rw [forEachField_cons_nil _ hq]
    refine ⟨?_, loadEnviron_subset L getenv post _ st1⟩
    simp only
    rw [List.getElem?_append_right (by omega), hidx]
    simp
  · rw [forEachField_cons_stop _ hq ho]
    refine ⟨?_, fun _ h => h⟩
    simp only
    rw [List.getElem?_append_right (by omega), hidx]
    simp

/-- The path handed to the reader, spelled out. -/
theorem expandPath_eq (getenv : String → String) (filePath q : String)
    (h1 : filePath.data.head? = some '~' →
      q = getenv "HOME" ++ String.mk (filePath.data.drop 1))
    (h2 : filePath.data.head? ≠ some '~' → q = filePath) :
    expandPath getenv filePath = q := by
  unfold expandPath
  split
  · next h => rw [h1 h, List.drop_one]
  · next h => exact (h2 h).symm

/-! ### The claims -/

/-- C1 at a failing input.  `-api-key=from-cli` is given on the command line of
the example and the file holds `"api_key": "from-file"`: the command-line layer
returns with `APIKey` set to `from-cli` and `api-key` marked, yet `Load` returns
`nil` with `APIKey` holding the value of the file. -/
theorem Load_file_overwrites_commandline_value :
    (loadCommandlineFlags goLib worldCli freshFlags mailgunArgs []).2.2
      = ([mailgunArgs.get ⟨0, by decide⟩,
          ⟨⟨"APIKey", ⟨"api-key", "api_key", ""⟩, .string, true⟩, .str "from-cli"⟩,
          mailgunArgs.get ⟨2, by decide⟩, mailgunArgs.get ⟨3, by decide⟩], ["api-key"])
    ∧ (Load goLib worldCli freshFlags mailgunArgs "~/.mailgun.json").1 = .nil
    ∧ (Load goLib worldCli freshFlags mailgunArgs "~/.mailgun.json").2.2.1.map Slot.val
      = [.str "", .str "from-file", .str "", .str ""] := by
  decide

/-- C2 at a failing input.  `loadEnviron` resolves `APIKey` of the example from
`API_KEY` and marks `api-key`; `loadFile`, run next on a file holding
`"api_key": "from-file"`, replaces the value. -/
theorem loadFile_overwrites_environment_value :
    (loadEnviron goLib envApiKey mailgunArgs []).1 = .nil
    ∧ (loadEnviron goLib envApiKey mailgunArgs []).2.1 = ["api-key"]
    ∧ (loadEnviron goLib envApiKey mailgunArgs []).2.2.map Slot.val
      = [.str "", .str "from-env", .str "", .str ""]
    ∧ (loadFile goLib worldEnv (loadEnviron goLib envApiKey mailgunArgs []).2.2
        (loadEnviron goLib envApiKey mailgunArgs []).2.1 "~/.mailgun.json").1 = .nil
    ∧ (loadFile goLib worldEnv (loadEnviron goLib envApiKey mailgunArgs []).2.2
        (loadEnviron goLib envApiKey mailgunArgs []).2.1 "~/.mailgun.json").2.2.1.map Slot.val
      = [.str "", .str "from-file", .str "", .str ""] := by
  decide

/-- C3.  `resolveFlagName` returns the aef tag when it is not empty, otherwise
the json tag when it is not empty, otherwise the lowercased identifier. -/
theorem resolveFlagName_priority (L : Lib) (fieldName : String) (t : Tag) :
    (t.aef ≠ "" → resolveFlagName L fieldName t = t.aef)
    ∧ (t.aef = "" → t.json ≠ "" → resolveFlagName L fieldName t = t.json)
    ∧ (t.aef = "" → t.json = "" → resolveFlagName L fieldName t = L.toLower fieldName) := by
  refine ⟨fun h => ?_, fun h1 h2 => ?_, fun h1 h2 => ?_⟩
  · simp [resolveFlagName, h]
  · simp [resolveFlagName, h1, h2]
  · simp [resolveFlagName, h1, h2]

/-- C4 at a failing input.  The command line of the example is empty and the
environment holds `API_KEY=from-env`, the only variant of `api_key` that is
set; the file holds `"api_key": "from-file"`.  The environment layer gives
`APIKey` the value `from-env`, yet `Load` returns `nil` with `APIKey` holding
the value of the file. -/
theorem Load_file_overwrites_environment_value :
    worldEnv.args = []
    ∧ worldEnv.getenv "api_key" = "" ∧ worldEnv.getenv "API_KEY" = "from-env"
    ∧ (loadEnviron goLib worldEnv.getenv
        (loadCommandlineFlags goLib worldEnv freshFlags mailgunArgs []).2.2.1
        (loadCommandlineFlags goLib worldEnv freshFlags mailgunArgs []).2.2.2).2.2.map Slot.val
      = [.str "", .str "from-env", .str "", .str ""]
    ∧ (Load goLib worldEnv freshFlags mailgunArgs "~/.mailgun.json").1 = .nil
    ∧ (Load goLib worldEnv freshFlags mailgunArgs "~/.mailgun.json").2.2.1.map Slot.val
      = [.str "", .str "from-file", .str "", .str ""] := by
  decide

/-- C5, as amended.  Take a field of kind bool, float64 or string that is absent
from the command line (its canonical name is not among the flags the command
line set) and from the environment (none of the three variants of its name holds
a text), and whose json-tag name is a key of the document holding a boolean, a
number or a string.  When the command-line and environment layers have returned
`nil` leaving a resolved set that does not have as many keys as the struct has
fields, the file is read and parsed, and every field of the struct can take the
values the document holds under its candidate names (the setters panic on an
unexported field or on a value of another type), `Load` returns `nil` and the
field ends with the value under its json-tag name, provided that name is the
only candidate name of the field that is a key of the document, is not a
candidate name of an earlier field and, when it is not the canonical name of the
field, is not in the resolved set either. -/
theorem Load_file_value (L : Lib) (W : World) (G G1 : FlagSet) (ss ss1 ss2 : List Slot)
    (m1 m2 : SetMap) (filePath f : String) (doc : List (String × Iface))
    (i : Nat) (s : Slot) (v : Iface) (x : Val)
    (hcli : loadCommandlineFlags L W G ss [] = (.nil, G1, ss1, m1))
    (henv : loadEnviron L W.getenv ss1 m1 = (.nil, m2, ss2))
    (hpath : filePath ≠ "") (hcount : m2.length ≠ ss.length)
    (hread : W.dumpFile (expandPath W.getenv filePath) = some f)
    (hdoc : L.unmarshal f = some doc)
    (htakes : ∀ t ∈ ss, ∀ c ∈ t.candidates L, ∀ w, doc.lookup c = some w →
      t.field.takes w = true)
    (hi : ss[i]? = some s)
    (hcliabs : s.flagName L ∉ m1)
    (henvabs : ∀ n ∈ [replaceDash (s.flagName L), L.toUpper (replaceDash (s.flagName L)),
      L.toLower (replaceDash (s.flagName L))], W.getenv n = "")
    (hjson : doc.lookup s.field.tag.json = some v)
    (hval : jsonValue s.field.kind v = some x)
    (honly : ∀ c ∈ s.candidates L, c = s.field.tag.json ∨ doc.lookup c = none)
    (hearlier : ∀ t ∈ ss.take i, s.field.tag.json ∉ t.candidates L)
    (hkey : s.field.tag.json ≠ s.flagName L → s.field.tag.json ∉ m2) :
    (Load L W G ss filePath).1 = .nil
    ∧ ((Load L W G ss filePath).2.2.1[i]?).map Slot.val = some x := by
  obtain ⟨-, -, hfields1, -, -, -⟩ := loadCommandlineFlags_nil L W G G1 ss ss1 [] m1 hcli
  have hlookup : envLookup L W.getenv (replaceDash (s.flagName L)) = "" :=
    envLookup_of_variants L W.getenv _ ""
      ⟨_, List.mem_cons_self _ _, henvabs _ (List.mem_cons_self _ _)⟩
      (fun n hn => Or.inl (henvabs n hn))
  have hunset : s.field.tag.json ∉ m2 := by
    by_cases hj : s.field.tag.json = s.flagName L
    · rw [hj]
      have := loadEnviron_unmarked L W.getenv ss1 m1 (s.flagName L) hcliabs hlookup
      rw [henv] at this
      exact this
    · exact hkey hj
  have hfields2 : ss2.map Slot.field = ss.map Slot.field := by
    have := loadEnviron_fields L W.getenv ss1 m1
    rw [henv] at this
    exact this.trans hfields1
  have hlen2 : ss2.length = ss.length := by
    simpa using congrArg List.length hfields2
  obtain ⟨s2, hi2, hs2⟩ := fields_getElem? hfields2 i s hi
  have hskip : ¬ (filePath = "" ∨ m2.length = ss2.length) := by
    rw [hlen2]
    exact fun h => h.elim hpath hcount
  have htakes2 : ∀ t ∈ ss2, ∀ c ∈ t.candidates L, ∀ w, doc.lookup c = some w →
      t.field.takes w = true := by
    intro t ht c hc w hw
    obtain ⟨j, hj⟩ := List.getElem?_of_mem ht
    obtain ⟨t0, ht0, hft⟩ := fields_getElem? hfields2.symm j t hj
    rw [← hft]
    exact htakes t0 (List.getElem?_mem ht0) c (candidates_congr L hft ▸ hc) w hw
  have hearlier2 : ∀ (j : Nat) (t : Slot), j < i → ss2[j]? = some t →
      s2.field.tag.json ∉ t.candidates L := by
    intro j t hj ht
    obtain ⟨t0, ht0, hft⟩ := fields_getElem? hfields2.symm j t ht
    rw [hs2, ← candidates_congr L hft]
    exact hearlier t0 (mem_take_of_getElem? hj ht0)
  have hlow : L.toLower s.field.name = s.field.tag.json
      ∨ L.toLower s.field.name = s.field.tag.aef
      ∨ doc.lookup (L.toLower s.field.name) = none :=
    (honly (L.toLower s.field.name) (by simp [Slot.candidates])).elim Or.inl
      (fun h => Or.inr (Or.inr h))
  obtain ⟨hnil, hslot⟩ := loadFile_loop_json L doc ss2 m2 i s2 v x htakes2 hi2
    (by rw [hs2]; exact hjson) (by rw [hs2]; exact hval) (by rw [hs2]; exact hunset) hearlier2
    (by rw [hs2]; exact hlow)
  rw [Load_of_nil L W G G1 ss ss1 ss2 m1 m2 filePath hcli henv,
    loadFile_parsed L W ss2 m2 filePath f doc hskip hread hdoc]
  refine ⟨hnil, ?_⟩
  simp only [hslot]
  rfl

/-- C5 at the struct of the example: with `"api_key": "from-file"` in the file
and nothing on the command line or in the environment, `Load` returns `nil` and
`APIKey` holds `from-file`. -/
theorem Load_file_value_witness :
    (Load goLib (worldFile docApiKey) freshFlags mailgunArgs "~/.mailgun.json").1 = .nil
    ∧ ((Load goLib (worldFile docApiKey) freshFlags mailgunArgs
        "~/.mailgun.json").2.2.1[1]?).map Slot.val = some (.str "from-file") := by
  have hcli : loadCommandlineFlags goLib (worldFile docApiKey) freshFlags mailgunArgs []
      = (.nil, (loadCommandlineFlags goLib (worldFile docApiKey) freshFlags mailgunArgs []).2.1,
          mailgunArgs, []) := by decide
  have henv : loadEnviron goLib (worldFile docApiKey).getenv mailgunArgs []
      = (.nil, [], mailgunArgs) := by decide
  exact Load_file_value goLib (worldFile docApiKey) freshFlags _ mailgunArgs mailgunArgs
    mailgunArgs [] [] "~/.mailgun.json" docApiKey [("api_key", .string "from-file")] 1
    (stringField "APIKey" "api-key" "api_key") (.string "from-file") (.str "from-file")
    hcli henv (by decide) (by decide) (by decide) (by decide) (by decide) (by decide)
    (by decide) (by decide) (by decide) (by decide) (by decide) (by decide) (by decide)

/-- C5 fails as stated: `APIKey` of the example is a string field absent from
the command line and the environment, its json-tag name `api_key` is a key of
the document, whose value is `null`; `Load` returns the unknown-type error and
the field keeps the empty string. -/
theorem Load_file_value_counterexample :
    mailgunArgs[1]? = some (stringField "APIKey" "api-key" "api_key")
    ∧ (stringField "APIKey" "api-key" "api_key").field.kind.supported = true
    ∧ (worldFile docNull).args = []
    ∧ (loadEnviron goLib (worldFile docNull).getenv
        (loadCommandlineFlags goLib (worldFile docNull) freshFlags mailgunArgs []).2.2.1
        (loadCommandlineFlags goLib (worldFile docNull) freshFlags mailgunArgs []).2.2.2)
      = (.nil, [], mailgunArgs)
    ∧ goLib.unmarshal docNull = some [("api_key", .null)]
    ∧ (Load goLib (worldFile docNull) freshFlags mailgunArgs "~/.mailgun.json").1
      = .error (.unknownValue .null)
    ∧ (Load goLib (worldFile docNull) freshFlags mailgunArgs "~/.mailgun.json").2.2.1
      = mailgunArgs := by
  decide

/-- C6, as amended.  For a field whose canonical name is not in the resolved
set, the text `loadEnviron` looks up is the first that is not empty among the
values of the name with every `-` replaced by `_`, as it is, then uppercased,
then lowercased.  When the three are empty, `loadEnviron` leaves the field
unchanged and its name out of the resolved set.  When one is not empty, the
resolved set does not have as many keys as the struct has fields, no earlier
field bears the name, and every earlier field is exported and of a supported
kind, or of another kind with the discard marker, `loadEnviron` leaves the field
as the switch on its kind leaves it with that text: holding the value of the
text and with its name in the resolved set, when the field is exported and the
text has a value of the kind of the field. -/
theorem loadEnviron_probe (L : Lib) (getenv : String → String) (ss : List Slot)
    (setMap : SetMap) (i : Nat) (s : Slot)
    (hi : ss[i]? = some s) (hunset : s.flagName L ∉ setMap) :
    envLookup L getenv (replaceDash (s.flagName L))
      = firstNonEmpty getenv [replaceDash (s.flagName L),
          L.toUpper (replaceDash (s.flagName L)), L.toLower (replaceDash (s.flagName L))]
    ∧ (replaceDash (s.flagName L)).data
      = (s.flagName L).data.map (fun c => if c = '-' then '_' else c)
    ∧ (firstNonEmpty getenv [replaceDash (s.flagName L),
          L.toUpper (replaceDash (s.flagName L)), L.toLower (replaceDash (s.flagName L))] = "" →
        (loadEnviron L getenv ss setMap).2.2[i]? = some s
        ∧ s.flagName L ∉ (loadEnviron L getenv ss setMap).2.1)
    ∧ (firstNonEmpty getenv [replaceDash (s.flagName L),
          L.toUpper (replaceDash (s.flagName L)), L.toLower (replaceDash (s.flagName L))] ≠ "" →
        setMap.length ≠ ss.length →
        (∀ t ∈ ss.take i, t.flagName L ≠ s.flagName L
          ∧ ((t.field.kind.supported = true ∧ t.field.exported = true)
            ∨ (t.field.kind.supported = false ∧ t.field.tag.aef = "-"))) →
        (∀ m1 : SetMap, (loadEnviron L getenv ss setMap).2.2[i]?
          = some (envAssign L s m1 (s.flagName L)
              (firstNonEmpty getenv [replaceDash (s.flagName L),
                L.toUpper (replaceDash (s.flagName L)),
                L.toLower (replaceDash (s.flagName L))])).2.2)
        ∧ ∀ x : Val, s.field.exported = true →
            coerce L s.field.kind (firstNonEmpty getenv [replaceDash (s.flagName L),
              L.toUpper (replaceDash (s.flagName L)),
              L.toLower (replaceDash (s.flagName L))]) = some x →
            (loadEnviron L getenv ss setMap).2.2[i]? = some { s with val := x }
            ∧ s.flagName L ∈ (loadEnviron L getenv ss setMap).2.1) := by
  have hlook := envLookup_eq_firstNonEmpty L getenv (replaceDash (s.flagName L))
  rw [← hlook]
  refine ⟨rfl, rfl, fun hempty => ⟨?_, ?_⟩, fun hne hcount hearlier => ?_⟩
  · unfold loadEnviron
    split
    · exact hi
    · have hrel := (forEachField_rel (loadEnvironField L getenv) (fun _ => True)
        (fun a b => a = s → b = a) (fun _ _ => rfl) ss
        (fun a _ j st _ => ⟨trivial, fun has => by
          subst has
          rw [loadEnvironField_eq, hempty]
          simp⟩) 0 setMap trivial).2
      obtain ⟨y, hy, hsy⟩ := forall₂_getElem? hrel i s hi
      rw [hy, hsy rfl]
  · exact loadEnviron_unmarked L getenv ss setMap (s.flagName L) hunset hempty
  · obtain ⟨m0, hm0, hslot, hsub⟩ := loadEnviron_reach L getenv ss setMap i s hcount hi hunset
      hearlier
    have hbody : loadEnvironField L getenv i m0 s
        = envAssign L s m0 (s.flagName L) (envLookup L getenv (replaceDash (s.flagName L))) := by
      rw [loadEnvironField_eq, if_neg hm0, if_pos hne]
    rw [hbody] at hslot hsub
    refine ⟨fun m1 => ?_, fun x hexp hx => ?_⟩
    · rw [hslot, envAssign_slot L s m0 m1 (s.flagName L) (s.flagName L)]
    · rw [envAssign_coerce L s m0 (s.flagName L) _ x hexp hx] at hslot hsub
      exact ⟨hslot, hsub (mem_mark.mpr (Or.inl rfl))⟩

/-- C6 at the field `APIKey` of the example with `API_KEY=from-env`: the name
`api-key` is looked up as `api_key`, `API_KEY`, `api_key`, the text used is
`from-env`, and `loadEnviron` leaves `APIKey` holding it, with `api-key` in the
resolved set. -/
theorem loadEnviron_probe_witness :
    mailgunArgs[1]? = some (stringField "APIKey" "api-key" "api_key")
    ∧ firstNonEmpty envApiKey ["api_key", "API_KEY", "api_key"] = "from-env"
    ∧ (loadEnviron goLib envApiKey mailgunArgs []).2.2[1]?
      = some ⟨⟨"APIKey", ⟨"api-key", "api_key", ""⟩, .string, true⟩, .str "from-env"⟩
    ∧ "api-key" ∈ (loadEnviron goLib envApiKey mailgunArgs []).2.1 :=
  have h := ((loadEnviron_probe goLib envApiKey mailgunArgs [] 1
    (stringField "APIKey" "api-key" "api_key") (by decide) (by decide)).2.2.2
      (by decide) (by decide) (by decide)).2 (.str "from-env") (by decide) (by decide)
  ⟨by decide, by decide, h.1, h.2⟩

/-- C6 fails as stated.  `Name` is unresolved and `NAME=bob` is set, but the
field before it is a channel without the discard marker that finds `DONE=1`:
`loadEnviron` returns the unknown-type error there and `Name` keeps the empty
string.  And `Debug` is unresolved with `DEBUG=true` set, but the resolved set
holds two other names for a struct of two fields: `loadEnviron` stops at once
and `Debug` stays `false`. -/
theorem loadEnviron_probe_counterexample :
    doneFirst[1]? = some (stringField "Name" "" "name")
    ∧ (stringField "Name" "" "name").flagName goLib = "name"
    ∧ firstNonEmpty (environ [("DONE", "1"), ("NAME", "bob")]) ["name", "NAME", "name"] = "bob"
    ∧ loadEnviron goLib (environ [("DONE", "1"), ("NAME", "bob")]) doneFirst []
      = (.error (.unknownType .other), [], doneFirst)
    ∧ debugZero[0]? = some ⟨⟨"Debug", ⟨"", "debug", ""⟩, .bool, true⟩, .bool false⟩
    ∧ "debug" ∉ (["verbose", "name"] : SetMap)
    ∧ firstNonEmpty (environ [("DEBUG", "true")]) ["debug", "DEBUG", "debug"] = "true"
    ∧ loadEnviron goLib (environ [("DEBUG", "true")]) debugZero ["verbose", "name"]
      = (.nil, ["verbose", "name"], debugZero) := by
  decide

/-- C7 at a failing input.  `Debug` is a bool field holding `true` and the
environment holds `DEBUG=maybe`, which `strconv.ParseBool` refuses:
`loadEnviron` returns `nil`, sets the field to `false` and adds `debug` to the
resolved set. -/
theorem loadEnviron_bool_parse_failure :
    goLib.parseBool "maybe" = none
    ∧ debugArgs.map Slot.val = [.bool true, .str ""]
    ∧ loadEnviron goLib (environ [("DEBUG", "maybe")]) debugArgs []
      = (.nil, ["debug"],
          [⟨⟨"Debug", ⟨"", "debug", ""⟩, .bool, true⟩, .bool false⟩, stringField "Name" "" "name"]) := by
  decide

/-- C8 at a failing input.  The document holds `"api-key": "first"` and
`"api_key": "second"`, two candidate names of `APIKey` of the example, of which
`api-key`, the aef tag, has the highest priority: `loadFile` returns `nil` with
`APIKey` holding `second`, and both keys marked. -/
theorem loadFile_lower_priority_key_wins :
    (stringField "APIKey" "api-key" "api_key").candidates goLib = ["api-key", "api_key", "apikey"]
    ∧ goLib.unmarshal docBothKeys
      = some [("api-key", .string "first"), ("api_key", .string "second")]
    ∧ (loadFile goLib worldBothKeys mailgunArgs [] "~/.mailgun.json").1 = .nil
    ∧ (loadFile goLib worldBothKeys mailgunArgs [] "~/.mailgun.json").2.1
      = ["api_key", "api-key"]
    ∧ (loadFile goLib worldBothKeys mailgunArgs [] "~/.mailgun.json").2.2.1.map Slot.val
      = [.str "", .str "second", .str "", .str ""] := by
  decide

/-- C9.  Let `q` be the value of `HOME` followed by the path without its first
character when the path begins with `~`, and the path itself when it does not.
Every path `loadFile` hands to the file reader is `q`, and it hands exactly one,
unless the path is empty or the resolved set has as many keys as the struct has
fields, when it reads nothing.  The result of `loadFile` depends on the files
only through what the reader answers at `q`: it is the same in every world with
the same `HOME` and the same answer at `q`, it is `nil` with nothing changed
when the reader fails at `q` or its answer is not a JSON object, and it is the
loop over the fields on the document read at `q` otherwise.  With
`HOME=/home/u`, what is read for `~/.mailgun.json` is `/home/u/.mailgun.json`:
where that file holds `api_key` only and a file named `~/.mailgun.json` holds
other keys, `APIKey` gets the value of the former. -/
theorem loadFile_path (L : Lib) (W : World) (ss : List Slot) (setMap : SetMap)
    (filePath : String) :
    (∀ p ∈ (loadFile L W ss setMap filePath).2.2.2,
      (filePath.data.head? = some '~' →
        p = W.getenv "HOME" ++ String.mk (filePath.data.drop 1))
      ∧ (filePath.data.head? ≠ some '~' → p = filePath))
    ∧ (loadFile L W ss setMap filePath).2.2.2.length
      = (if filePath = "" ∨ setMap.length = ss.length then 0 else 1)
    ∧ (∀ q : String,
        (filePath.data.head? = some '~' →
          q = W.getenv "HOME" ++ String.mk (filePath.data.drop 1)) →
        (filePath.data.head? ≠ some '~' → q = filePath) →
        (∀ W2 : World, W2.getenv "HOME" = W.getenv "HOME" → W2.dumpFile q = W.dumpFile q →
          loadFile L W2 ss setMap filePath = loadFile L W ss setMap filePath)
        ∧ (¬ (filePath = "" ∨ setMap.length = ss.length) →
            (W.dumpFile q = none →
              loadFile L W ss setMap filePath = (.nil, setMap, ss, [q]))
            ∧ (∀ f, W.dumpFile q = some f → L.unmarshal f = none →
              loadFile L W ss setMap filePath = (.nil, setMap, ss, [q]))
            ∧ (∀ f doc, W.dumpFile q = some f → L.unmarshal f = some doc →
              loadFile L W ss setMap filePath
                = ((forEachField (loadFileField L doc) 0 ss setMap).1,
                   (forEachField (loadFileField L doc) 0 ss setMap).2.1,
                   (forEachField (loadFileField L doc) 0 ss setMap).2.2, [q]))))
    ∧ (W.getenv "HOME" = "/home/u" →
        (∀ p ∈ (loadFile L W ss setMap "~/.mailgun.json").2.2.2, p = "/home/u/.mailgun.json")
        ∧ (setMap.length ≠ ss.length →
          (loadFile L W ss setMap "~/.mailgun.json").2.2.2 = ["/home/u/.mailgun.json"])
        ∧ (∀ W2 : World, W2.getenv "HOME" = "/home/u" →
            W2.dumpFile "/home/u/.mailgun.json" = W.dumpFile "/home/u/.mailgun.json" →
            loadFile L W2 ss setMap "~/.mailgun.json" = loadFile L W ss setMap "~/.mailgun.json"))
    ∧ worldTwoFiles.getenv "HOME" = "/home/u"
    ∧ worldTwoFiles.dumpFile "/home/u/.mailgun.json" = some docApiKey
    ∧ worldTwoFiles.dumpFile "~/.mailgun.json" = some docBothKeys
    ∧ loadFile goLib worldTwoFiles mailgunArgs [] "~/.mailgun.json"
      = (.nil, ["api_key"],
          [mailgunArgs.get ⟨0, by decide⟩,
           ⟨⟨"APIKey", ⟨"api-key", "api_key", ""⟩, .string, true⟩, .str "from-file"⟩,
           mailgunArgs.get ⟨2, by decide⟩, mailgunArgs.get ⟨3, by decide⟩],
          ["/home/u/.mailgun.json"]) := by
  have hreads : ∀ (path : String), ¬ (path = "" ∨ setMap.length = ss.length) →
      (loadFile L W ss setMap path).2.2.2 = [expandPath W.getenv path] := by
    intro path hskip
    rcases hd : W.dumpFile (expandPath W.getenv path) with _ | f
    · rw [loadFile_unread L W ss setMap path hskip hd]
    · rcases hu : L.unmarshal f with _ | m
      · rw [loadFile_unparsed L W ss setMap path f hskip hd hu]
      · rw [loadFile_parsed L W ss setMap path f m hskip hd hu]
  have hhome : ∀ getenv : String → String, getenv "HOME" = "/home/u" →
      expandPath getenv "~/.mailgun.json" = "/home/u/.mailgun.json" := by
    intro getenv h
    unfold expandPath
    rw [h]
    decide
  have hsame : ∀ (W2 : World) (path : String),
      expandPath W2.getenv path = expandPath W.getenv path →
      W2.dumpFile (expandPath W.getenv path) = W.dumpFile (expandPath W.getenv path) →
      loadFile L W2 ss setMap path = loadFile L W ss setMap path := by
    intro W2 path hp hd
    unfold loadFile
    rw [hp, hd]
  refine ⟨fun p hp => ?_, ?_, fun q h1 h2 => ?_, fun h => ⟨fun p hp => ?_, fun hcount => ?_,
    fun W2 h2 hd => ?_⟩, by decide, by decide, by decide, by decide⟩
  · by_cases hskip : filePath = "" ∨ setMap.length = ss.length
    · rw [loadFile_skip L W ss setMap filePath hskip] at hp
      exact absurd hp (List.not_mem_nil _)
    · rw [hreads filePath hskip, List.mem_singleton] at hp
      subst hp
      unfold expandPath
      constructor
      · intro h
        rw [if_pos h, List.drop_one]
      · intro h
        rw [if_neg h]
  · by_cases hskip : filePath = "" ∨ setMap.length = ss.length
    · rw [loadFile_skip L W ss setMap filePath hskip, if_pos hskip]
      rfl
    · rw [hreads filePath hskip, if_neg hskip]
      rfl
  · have hq : expandPath W.getenv filePath = q := expandPath_eq W.getenv filePath q h1 h2
    subst hq
    refine ⟨fun W2 hhome2 hd => hsame W2 filePath ?_ hd, fun hskip => ⟨fun hd => ?_,
      fun f hd hu => ?_, fun f doc hd hu => ?_⟩⟩
    · unfold expandPath
      rw [hhome2]
    · exact loadFile_unread L W ss setMap filePath hskip hd
    · exact loadFile_unparsed L W ss setMap filePath f hskip hd hu
    · exact loadFile_parsed L W ss setMap filePath f doc hskip hd hu
  · by_cases hskip : "~/.mailgun.json" = "" ∨ setMap.length = ss.length
    · rw [loadFile_skip L W ss setMap _ hskip] at hp
      exact absurd hp (List.not_mem_nil _)
    · rw [hreads _ hskip, List.mem_singleton, hhome W.getenv h] at hp
      exact hp
  · rw [hreads "~/.mailgun.json" (fun h1 => h1.elim (by decide) hcount), hhome W.getenv h]
  · refine hsame W2 "~/.mailgun.json" ?_ ?_
    · rw [hhome W2.getenv h2, hhome W.getenv h]
    · rw [hhome W.getenv h]
      exact hd

/-- C10, as amended.  When reading the file fails or its content is not a JSON
object, `loadFile` returns `nil` and leaves the struct and the resolved set as
they were; and when the command-line layer has returned `nil` with no field
marked and no field finds a text in the environment, `Load` returns `nil` and
leaves every field as the registration of the flags left it: at the zero value
for the seven kinds, a struct of zero values being unchanged. -/
theorem Load_file_failure (L : Lib) (W : World) (filePath : String)
    (hfile : W.dumpFile (expandPath W.getenv filePath) = none
      ∨ ∃ f, W.dumpFile (expandPath W.getenv filePath) = some f ∧ L.unmarshal f = none) :
    (∀ (ss : List Slot) (setMap : SetMap),
      (loadFile L W ss setMap filePath).1 = .nil
      ∧ (loadFile L W ss setMap filePath).2.1 = setMap
      ∧ (loadFile L W ss setMap filePath).2.2.1 = ss)
    ∧ ∀ (G G1 : FlagSet) (ss ss1 : List Slot) (m1 : SetMap),
        loadCommandlineFlags L W G ss [] = (.nil, G1, ss1, m1) →
        (∀ fl ∈ G.formal, fl.target = none) →
        (∀ s ∈ ss, s.flagName L ∉ m1) →
        (∀ s ∈ ss, envLookup L W.getenv (replaceDash (s.flagName L)) = "") →
        (Load L W G ss filePath).1 = .nil
        ∧ (Load L W G ss filePath).2.2.1 = ss.map Slot.reset
        ∧ ((∀ s ∈ ss, s.val = s.field.kind.zero) → (Load L W G ss filePath).2.2.1 = ss) := by
  refine ⟨fun ss setMap => loadFile_absorbs L W ss setMap filePath hfile, ?_⟩
  intro G G1 ss ss1 m1 hcli hG hunset henv
  obtain ⟨-, -, hfields, -, -, hidx⟩ := loadCommandlineFlags_nil L W G G1 ss ss1 [] m1 hcli
  have hlen : ss1.length = ss.length := by
    simpa using congrArg List.length hfields
  have hss1 : ss1 = ss.map Slot.reset := by
    apply List.ext_getElem?
    intro j
    rcases hj : ss[j]? with _ | a
    · rw [List.getElem?_map, hj]
      rw [List.getElem?_eq_none_iff] at hj
      exact List.getElem?_eq_none_iff.mpr (by omega)
    · rw [hidx hG j a hj (hunset a (List.getElem?_mem hj)), List.getElem?_map, hj]
      rfl
  have henv1 : loadEnviron L W.getenv ss1 m1 = (.nil, m1, ss1) := by
    refine loadEnviron_empty L W.getenv ss1 m1 (fun s hs => ?_)
    rw [hss1] at hs
    obtain ⟨a, ha, has⟩ := List.mem_map.mp hs
    rw [← has, flagName_congr L (reset_field a)]
    exact henv a ha
  obtain ⟨hf1, -, hf3⟩ := loadFile_absorbs L W ss1 m1 filePath hfile
  rw [Load_of_nil L W G G1 ss ss1 ss1 m1 m1 filePath hcli henv1]
  refine ⟨hf1, hf3.trans hss1, fun hzero => ?_⟩
  rw [hf3, hss1]
  conv_rhs => rw [← List.map_id ss]
  exact List.map_congr_left (fun a ha => reset_of_zero a (hzero a ha))

/-- C10 at the struct of the example: without any file, with an empty command
line and nothing set in the environment, `Load` returns `nil` and the struct is
unchanged, every field empty. -/
theorem Load_file_failure_witness :
    worldMissing.dumpFile (expandPath worldMissing.getenv "~/.mailgun.json") = none
    ∧ (Load goLib worldMissing freshFlags mailgunArgs "~/.mailgun.json").1 = .nil
    ∧ (Load goLib worldMissing freshFlags mailgunArgs "~/.mailgun.json").2.2.1 = mailgunArgs := by
  have hcli : loadCommandlineFlags goLib worldMissing freshFlags mailgunArgs []
      = (.nil, (loadCommandlineFlags goLib worldMissing freshFlags mailgunArgs []).2.1,
          mailgunArgs, []) := by decide
  have h := (Load_file_failure goLib worldMissing "~/.mailgun.json" (Or.inl (by decide))).2
    freshFlags _ mailgunArgs mailgunArgs [] hcli (by decide) (by decide) (by decide)
  exact ⟨by decide, h.1, h.2.2 (by decide)⟩

/-- C10 fails as stated: the struct of the example with a channel field has no
field set on the command line or in the environment and there is no file, yet
`Load` returns the unknown-type error. -/
theorem Load_file_failure_counterexample :
    worldMissing.args = []
    ∧ (∀ s ∈ mailgunWithChan,
        envLookup goLib worldMissing.getenv (replaceDash (s.flagName goLib)) = "")
    ∧ worldMissing.dumpFile (expandPath worldMissing.getenv "~/.mailgun.json") = none
    ∧ (∀ s ∈ mailgunWithChan, s.val = s.field.kind.zero)
    ∧ (Load goLib worldMissing freshFlags mailgunWithChan "~/.mailgun.json").1
      = .error (.unknownType .other) := by
  decide

/-! ### Outcomes of the loops -/

/-- The outcome of the loop is `nil` or the outcome of its body on one of the
fields. -/
theorem forEachField_outcome {σ : Type} (body : Nat → σ → Slot → Outcome × σ × Slot)
    (ss : List Slot) (i : Nat) (st : σ) :
    (forEachField body i ss st).1 = .nil
      ∨ ∃ s ∈ ss, ∃ j st0, (body j st0 s).1 = (forEachField body i ss st).1 := by
  induction ss generalizing i st with
  | nil => exact Or.inl rfl
  | cons s rest ih =>
    rcases hb : body i st s with ⟨o, st1, s1⟩
    by_cases ho : o = .nil
    · subst ho
      rw [forEachField_cons_nil body hb]
      rcases ih (i + 1) st1 with h | ⟨t, ht, j, st0, h⟩
      · exact Or.inl h
      · exact Or.inr ⟨t, List.mem_cons_of_mem _ ht, j, st0, h⟩
    · rw [forEachField_cons_stop body hb ho]
      exact Or.inr ⟨s, List.mem_cons_self _ _, i, st, by rw [hb]⟩

theorem Load_flags (L : Lib) (W : World) (G : FlagSet) (ss : List Slot) (filePath : String) :
    (Load L W G ss filePath).2.1 = (loadCommandlineFlags L W G ss []).2.1 := by
  rcases hc : loadCommandlineFlags L W G ss [] with ⟨o, G1, ss1, m1⟩
  cases o
  · rcases he : loadEnviron L W.getenv ss1 m1 with ⟨o2, m2, ss2⟩
    cases o2 <;> simp only [Load, hc, he]
  all_goals simp only [Load, hc]

/-- When `Load` does not return `nil` from its first layer, it ends as that
layer does. -/
theorem Load_of_cli (L : Lib) (W : World) (G : FlagSet) (ss : List Slot) (filePath : String)
    (h : (loadCommandlineFlags L W G ss []).1 ≠ .nil) :
    Load L W G ss filePath
      = ((loadCommandlineFlags L W G ss []).1, (loadCommandlineFlags L W G ss []).2.1,
          (loadCommandlineFlags L W G ss []).2.2.1, []) := by
  rcases hc : loadCommandlineFlags L W G ss [] with ⟨o, G1, ss1, m1⟩
  rw [hc] at h
  cases o
  · exact absurd rfl h
  all_goals simp only [Load, hc]

theorem Load_parsed (L : Lib) (W : World) (G : FlagSet) (ss : List Slot) (filePath : String)
    (h : G.parsed = true) :
    Load L W G ss filePath = (.error .ErrFlagAlreadyParsed, G, ss, []) := by
  have hcli : loadCommandlineFlags L W G ss [] = (.error .ErrFlagAlreadyParsed, G, ss, []) := by
    unfold loadCommandlineFlags
    rw [if_pos h]
  rw [Load_of_cli L W G ss filePath (by rw [hcli]; exact fun h => Outcome.noConfusion h), hcli]

/-! ### Registration of the flags -/

theorem registerField_unsupported (L : Lib) (i : Nat) (G : FlagSet) (s : Slot)
    (hk : s.field.kind.supported = false) (haef : s.field.tag.aef ≠ "-") :
    registerField L i G s = (.error (.unknownType s.field.kind), G, s) := by
  unfold registerField
  rcases hkind : s.field.kind <;> rw [hkind] at hk <;> simp [Kind.supported] at hk <;>
    simp [haef]

theorem registerField_accepted (L : Lib) (i : Nat) (G : FlagSet) (s : Slot)
    (h : s.field.kind.supported = true ∨ s.field.tag.aef = "-") :
    (registerField L i G s).1 = .nil ∨ (registerField L i G s).1 = .panic := by
  unfold registerField flagVar
  rcases hkind : s.field.kind <;> rw [hkind] at h <;> simp only [] <;>
    first
    | (split <;> simp; done)
    | (simp [Kind.supported] at h; simp [h])

/-- The registration of a field of one of the seven kinds whose name `flag.Var`
accepts and which is not yet defined. -/
theorem registerField_fresh (L : Lib) (i : Nat) (G : FlagSet) (s : Slot)
    (hk : s.field.kind.supported = true) (hok : L.flagNameOk (s.flagName L) = true)
    (hnew : s.flagName L ∉ G.formal.map Flag.name) :
    (registerField L i G s).1 = .nil
    ∧ (registerField L i G s).2.1.formal.map Flag.name
      = G.formal.map Flag.name ++ [s.flagName L] := by
  have hcond : L.flagNameOk (resolveFlagName L s.field.name s.field.tag) = true
      ∧ resolveFlagName L s.field.name s.field.tag ∉ G.formal.map Flag.name := ⟨hok, hnew⟩
  unfold registerField flagVar
  rcases hkind : s.field.kind <;> rw [hkind] at hk <;> simp [Kind.supported] at hk <;>
    simp only [if_pos hcond] <;> simp [Slot.flagName]

theorem registerField_discard (L : Lib) (i : Nat) (G : FlagSet) (s : Slot)
    (hk : s.field.kind.supported = false) (haef : s.field.tag.aef = "-") :
    registerField L i G s = (.nil, G, s) := by
  unfold registerField
  rcases hkind : s.field.kind <;> rw [hkind] at hk <;> simp [Kind.supported] at hk <;>
    simp [haef]

/-- The registration of the flags returns `nil` when every field is of one of
the seven kinds or bears the discard marker, and the names of the flags are
accepted by `flag.Var`, not yet defined and pairwise different. -/
theorem register_accepted (L : Lib) (ss : List Slot) (i : Nat) (G : FlagSet)
    (hss : ∀ a ∈ ss, a.field.kind.supported = true ∨ a.field.tag.aef = "-")
    (hnames : ∀ n ∈ flagNames L ss, L.flagNameOk n = true ∧ n ∉ G.formal.map Flag.name)
    (hnodup : (flagNames L ss).Nodup) :
    (forEachField (registerField L) i ss G).1 = .nil := by
  induction ss generalizing i G with
  | nil => rfl
  | cons s rest ih =>
    by_cases hk : s.field.kind.supported = true
    · have hfn : flagNames L (s :: rest) = s.flagName L :: flagNames L rest := by
        simp [flagNames, List.filter_cons, hk]
      rw [hfn] at hnames hnodup
      obtain ⟨hok, hnew⟩ := hnames _ (List.mem_cons_self _ _)
      obtain ⟨h1, h2⟩ := registerField_fresh L i G s hk hok hnew
      rcases hb : registerField L i G s with ⟨o, G1, s1⟩
      rw [hb] at h1 h2
      simp only at h1 h2
      subst h1
      rw [forEachField_cons_nil _ hb]
      refine ih (i + 1) G1 (fun a ha => hss a (List.mem_cons_of_mem _ ha)) (fun n hn => ?_)
        (List.nodup_cons.mp hnodup).2
      refine ⟨(hnames n (List.mem_cons_of_mem _ hn)).1, ?_⟩
      rw [h2, List.mem_append, List.mem_singleton]
      rintro (h | h)
      · exact (hnames n (List.mem_cons_of_mem _ hn)).2 h
      · exact (List.nodup_cons.mp hnodup).1 (h ▸ hn)
    · have hk' : s.field.kind.supported = false := by simpa using hk
      have hfn : flagNames L (s :: rest) = flagNames L rest := by
        simp [flagNames, List.filter_cons, hk']
      rw [hfn] at hnames hnodup
      have haef : s.field.tag.aef = "-" := by
        rcases hss s (List.mem_cons_self _ _) with h | h
        · exact absurd h hk
        · exact h
      rw [forEachField_cons_nil _ (registerField_discard L i G s hk' haef)]
      exact ih (i + 1) G (fun a ha => hss a (List.mem_cons_of_mem _ ha)) hnames hnodup

/-- When the registration of the flags does not return `nil`,
`loadCommandlineFlags` ends as the registration does. -/
theorem loadCommandlineFlags_stop (L : Lib) (W : World) (G : FlagSet) (ss : List Slot)
    (m : SetMap) (hG : G.parsed = false)
    (h : (forEachField (registerField L) 0 ss G).1 ≠ .nil) :
    loadCommandlineFlags L W G ss m
      = ((forEachField (registerField L) 0 ss G).1, (forEachField (registerField L) 0 ss G).2.1,
          (forEachField (registerField L) 0 ss G).2.2, m) := by
  have hGf : ¬ (G.parsed = true) := by simp [hG]
  unfold loadCommandlineFlags
  rw [if_neg hGf]
  rcases hr : forEachField (registerField L) 0 ss G with ⟨o, G1, ss1⟩
  rw [hr] at h
  cases o
  · exact absurd rfl h
  all_goals rfl

/-! ### Where an error comes from -/

theorem registerField_error (L : Lib) (i : Nat) (G : FlagSet) (s : Slot) (e : Err)
    (h : (registerField L i G s).1 = .error e) :
    s.field.kind.supported = false ∧ s.field.tag.aef ≠ "-" ∧ e = .unknownType s.field.kind := by
  by_cases hk : s.field.kind.supported = true
  · rcases registerField_accepted L i G s (Or.inl hk) with h1 | h1 <;>
      exact absurd (h1.symm.trans h) (fun h => Outcome.noConfusion h)
  · have hk' : s.field.kind.supported = false := by simpa using hk
    by_cases haef : s.field.tag.aef = "-"
    · rw [registerField_discard L i G s hk' haef] at h
      exact Outcome.noConfusion h
    · rw [registerField_unsupported L i G s hk' haef] at h
      exact ⟨hk', haef, by simpa using h.symm⟩

theorem loadCommandlineFlags_error (L : Lib) (W : World) (G : FlagSet) (ss : List Slot)
    (m : SetMap) (e : Err) (h : (loadCommandlineFlags L W G ss m).1 = .error e) :
    (G.parsed = true ∧ e = .ErrFlagAlreadyParsed)
    ∨ ∃ s ∈ ss, s.field.kind.supported = false ∧ s.field.tag.aef ≠ "-"
        ∧ e = .unknownType s.field.kind := by
  by_cases hG : G.parsed = true
  · left
    unfold loadCommandlineFlags at h
    rw [if_pos hG] at h
    exact ⟨hG, by simpa using h.symm⟩
  · right
    have hG' : G.parsed = false := by simpa using hG
    by_cases hreg : (forEachField (registerField L) 0 ss G).1 = .nil
    · exfalso
      unfold loadCommandlineFlags at h
      rw [if_neg hG] at h
      rcases hr : forEachField (registerField L) 0 ss G with ⟨o, G1, ss1⟩
      rw [hr] at h hreg
      simp only at hreg
      subst hreg
      simp only at h
      rcases hp : parseArgs L G1.formal W.args ss1 [] with _ | ⟨ss2, actual⟩ <;>
        simp [hp] at h
    · rw [loadCommandlineFlags_stop L W G ss m hG' hreg] at h
      rcases forEachField_outcome (registerField L) ss 0 G with h1 | ⟨s, hs, j, G0, h1⟩
      · exact absurd h1 hreg
      · exact ⟨s, hs, registerField_error L j G0 s e (h1.trans h)⟩

theorem stored_error (s : Slot) (m : SetMap) (k : String) (r : Option Slot) (e : Err) :
    (stored s m k r).1 ≠ .error e := by
  cases r <;> exact fun h => Outcome.noConfusion h

theorem envAssign_error (L : Lib) (s : Slot) (m : SetMap) (k v : String) (e : Err)
    (h : (envAssign L s m k v).1 = .error e) :
    s.field.kind.supported = false ∧ s.field.tag.aef ≠ "-" ∧ e = .unknownType s.field.kind := by
  unfold envAssign at h
  split at h
  · exact absurd h (stored_error _ _ _ _ _)
  · exact absurd h (stored_error _ _ _ _ _)
  · split at h
    · exact Outcome.noConfusion h
    · exact absurd h (stored_error _ _ _ _ _)
  · split at h
    · exact Outcome.noConfusion h
    · exact absurd h (stored_error _ _ _ _ _)
  · split at h
    · exact Outcome.noConfusion h
    · exact absurd h (stored_error _ _ _ _ _)
  · split at h
    · exact Outcome.noConfusion h
    · exact absurd h (stored_error _ _ _ _ _)
  · split at h
    · exact Outcome.noConfusion h
    · exact absurd h (stored_error _ _ _ _ _)
  · next h1 h2 h3 h4 h5 h6 h7 =>
    split at h
    · next haef =>
      refine ⟨?_, haef, (Outcome.error.inj h).symm⟩
      rcases hkind : s.field.kind <;> simp_all [Kind.supported]
    · exact Outcome.noConfusion h

theorem loadEnviron_error (L : Lib) (getenv : String → String) (ss : List Slot) (m : SetMap)
    (e : Err) (h : (loadEnviron L getenv ss m).1 = .error e) :
    ∃ s ∈ ss, s.field.kind.supported = false ∧ s.field.tag.aef ≠ "-"
      ∧ e = .unknownType s.field.kind := by
  unfold loadEnviron at h
  split at h
  · exact Outcome.noConfusion h
  · rcases forEachField_outcome (loadEnvironField L getenv) ss 0 m with h1 | ⟨s, hs, j, st, h1⟩
    · exact Outcome.noConfusion (h1.symm.trans h)
    · refine ⟨s, hs, ?_⟩
      have hb := h1.trans h
      rw [loadEnvironField_eq] at hb
      split at hb
      · exact Outcome.noConfusion hb
      · split at hb
        · exact envAssign_error L s st _ _ e hb
        · exact Outcome.noConfusion hb

theorem known_false (v : Iface) (h : v.known = false) : v = .null ∨ v = .array ∨ v = .object := by
  cases v <;> simp [Iface.known] at h <;> simp

theorem fileAssign_error (L : Lib) (s : Slot) (m : SetMap) (c : String) (v : Iface) (e : Err)
    (h : (fileAssign L s m c v).1 = .error e) :
    (v = .null ∨ v = .array ∨ v = .object) ∧ s.field.tag.aef ≠ "-" ∧ e = .unknownValue v := by
  unfold fileAssign at h
  cases v <;> simp only [] at h <;>
    first
    | exact absurd h (stored_error _ _ _ _ _)
    | (split at h
       · next haef => exact ⟨by simp, haef, by simpa using h.symm⟩
       · exact Outcome.noConfusion h)

theorem loadFileKeys_error (L : Lib) (m : List (String × Iface)) (keys : List String)
    (setMap : SetMap) (s : Slot) (e : Err) (h : (loadFileKeys L m keys setMap s).1 = .error e) :
    ∃ c ∈ keys, ∃ v, m.lookup c = some v ∧ (v = .null ∨ v = .array ∨ v = .object)
      ∧ s.field.tag.aef ≠ "-" ∧ e = .unknownValue v := by
  induction keys generalizing setMap s with
  | nil => exact Outcome.noConfusion h
  | cons c rest ih =>
    have hf := (loadFileKey_frame L m setMap s c).1
    rcases hk : loadFileKey L m setMap s c with ⟨o, setMap1, s1⟩
    rw [hk] at hf
    simp only at hf
    by_cases ho : o = .nil
    · subst ho
      rw [loadFileKeys_cons_nil hk] at h
      obtain ⟨c1, hc1, v, hv⟩ := ih setMap1 s1 h
      exact ⟨c1, List.mem_cons_of_mem _ hc1, v, hf ▸ hv⟩
    · rw [loadFileKeys_cons_stop hk ho] at h
      simp only at h
      subst h
      refine ⟨c, List.mem_cons_self _ _, ?_⟩
      unfold loadFileKey at hk
      rcases hl : m.lookup c with _ | v
      · rw [hl] at hk
        exact Outcome.noConfusion (congrArg Prod.fst hk)
      · rw [hl] at hk
        simp only at hk
        split at hk
        · exact Outcome.noConfusion (congrArg Prod.fst hk)
        · exact ⟨v, rfl, fileAssign_error L s setMap c v e (congrArg Prod.fst hk)⟩

theorem loadFile_error (L : Lib) (W : World) (ss : List Slot) (setMap : SetMap)
    (filePath : String) (e : Err) (h : (loadFile L W ss setMap filePath).1 = .error e) :
    ∃ f doc, W.dumpFile (expandPath W.getenv filePath) = some f ∧ L.unmarshal f = some doc
      ∧ ∃ s ∈ ss, ∃ c ∈ s.candidates L, ∃ v, doc.lookup c = some v
        ∧ (v = .null ∨ v = .array ∨ v = .object)
        ∧ s.field.tag.aef ≠ "-" ∧ e = .unknownValue v := by
  by_cases hskip : filePath = "" ∨ setMap.length = ss.length
  · rw [loadFile_skip L W ss setMap filePath hskip] at h
    exact Outcome.noConfusion h
  · rcases hd : W.dumpFile (expandPath W.getenv filePath) with _ | f
    · rw [loadFile_unread L W ss setMap filePath hskip hd] at h
      exact Outcome.noConfusion h
    · rcases hu : L.unmarshal f with _ | doc
      · rw [loadFile_unparsed L W ss setMap filePath f hskip hd hu] at h
        exact Outcome.noConfusion h
      · rw [loadFile_parsed L W ss setMap filePath f doc hskip hd hu] at h
        simp only at h
        refine ⟨f, doc, rfl, hu, ?_⟩
        rcases forEachField_outcome (loadFileField L doc) ss 0 setMap with
          h1 | ⟨s, hs, j, st, h1⟩
        · exact Outcome.noConfusion (h1.symm.trans h)
        · exact ⟨s, hs, loadFileKeys_error L doc _ st s e (h1.trans h)⟩

/-! ### The claims, continued -/

/-- C11, as amended.  `Load` returns an error only when the command line was
already parsed, when a field has an unsupported kind without the discard
marker, or when the file was read and parsed and the document holds `null`, an
array or an object under a candidate name of a field without the discard
marker.  So with the command line not yet parsed and every field of a
supported kind, `Load` returns no error for every environment and every file
whose document holds none of these three under a candidate name of a field. -/
theorem Load_error_only (L : Lib) (W : World) (G : FlagSet) (ss : List Slot)
    (filePath : String) :
    (∀ e, (Load L W G ss filePath).1 = .error e →
      (G.parsed = true ∧ e = .ErrFlagAlreadyParsed)
      ∨ (∃ s ∈ ss, s.field.kind.supported = false ∧ s.field.tag.aef ≠ "-"
          ∧ e = .unknownType s.field.kind)
      ∨ ∃ f doc, W.dumpFile (expandPath W.getenv filePath) = some f ∧ L.unmarshal f = some doc
          ∧ ∃ s ∈ ss, ∃ c ∈ s.candidates L, ∃ v, doc.lookup c = some v
            ∧ (v = .null ∨ v = .array ∨ v = .object)
            ∧ s.field.tag.aef ≠ "-" ∧ e = .unknownValue v)
    ∧ (G.parsed = false → (∀ s ∈ ss, s.field.kind.supported = true) →
        (∀ f doc, W.dumpFile (expandPath W.getenv filePath) = some f → L.unmarshal f = some doc →
          ∀ s ∈ ss, ∀ c ∈ s.candidates L,
            doc.lookup c ≠ some .null ∧ doc.lookup c ≠ some .array
              ∧ doc.lookup c ≠ some .object) →
        ∀ e, (Load L W G ss filePath).1 ≠ .error e) := by
  have hmain : ∀ e, (Load L W G ss filePath).1 = .error e →
      (G.parsed = true ∧ e = .ErrFlagAlreadyParsed)
      ∨ (∃ s ∈ ss, s.field.kind.supported = false ∧ s.field.tag.aef ≠ "-"
          ∧ e = .unknownType s.field.kind)
      ∨ ∃ f doc, W.dumpFile (expandPath W.getenv filePath) = some f ∧ L.unmarshal f = some doc
          ∧ ∃ s ∈ ss, ∃ c ∈ s.candidates L, ∃ v, doc.lookup c = some v
            ∧ (v = .null ∨ v = .array ∨ v = .object)
            ∧ s.field.tag.aef ≠ "-" ∧ e = .unknownValue v := by
    intro e h
    by_cases hcli : (loadCommandlineFlags L W G ss []).1 = .nil
    · rcases hr : loadCommandlineFlags L W G ss [] with ⟨o, G1, ss1, m1⟩
      rw [hr] at hcli
      simp only at hcli
      subst hcli
      obtain ⟨-, -, hfields1, -, -, -⟩ := loadCommandlineFlags_nil L W G G1 ss ss1 [] m1 hr
      by_cases henv : (loadEnviron L W.getenv ss1 m1).1 = .nil
      · have hfields2 := (loadEnviron_fields L W.getenv ss1 m1).trans hfields1
        rcases he : loadEnviron L W.getenv ss1 m1 with ⟨o2, m2, ss2⟩
        rw [he] at henv hfields2
        simp only at henv hfields2
        subst henv
        rw [Load_of_nil L W G G1 ss ss1 ss2 m1 m2 filePath hr he] at h
        obtain ⟨f, doc, hd, hu, t, ht, c, hc, v, hv, hnull, haef, hev⟩ :=
          loadFile_error L W ss2 m2 filePath e h
        have : t.field ∈ ss.map Slot.field := hfields2 ▸ List.mem_map_of_mem _ ht
        obtain ⟨s, hs, hst⟩ := List.mem_map.mp this
        refine Or.inr (Or.inr ⟨f, doc, hd, hu, s, hs, c, ?_, v, hv, hnull, ?_, hev⟩)
        · rw [candidates_congr L hst]
          exact hc
        · rw [hst]
          exact haef
      · rw [Load_of_env L W G G1 ss ss1 m1 filePath hr henv] at h
        obtain ⟨t, ht, hk, haef, hev⟩ := loadEnviron_error L W.getenv ss1 m1 e h
        have : t.field ∈ ss.map Slot.field := hfields1 ▸ List.mem_map_of_mem _ ht
        obtain ⟨s, hs, hst⟩ := List.mem_map.mp this
        exact Or.inr (Or.inl ⟨s, hs, by rw [hst]; exact hk, by rw [hst]; exact haef,
          by rw [hst]; exact hev⟩)
    · rw [Load_of_cli L W G ss filePath hcli] at h
      rcases loadCommandlineFlags_error L W G ss [] e h with h1 | h1
      · exact Or.inl h1
      · exact Or.inr (Or.inl h1)
  refine ⟨hmain, fun hG hsup hdoc e he => ?_⟩
  rcases hmain e he with ⟨h1, -⟩ | ⟨s, hs, h1, -⟩ | ⟨f, doc, hd, hu, s, hs, c, hc, v, hv, hnull, -⟩
  · rw [hG] at h1
    exact Bool.noConfusion h1
  · rw [hsup s hs] at h1
    exact Bool.noConfusion h1
  · obtain ⟨h1, h2, h3⟩ := hdoc f doc hd hu s hs c hc
    rcases hnull with h | h | h <;> subst h
    · exact h1 hv
    · exact h2 hv
    · exact h3 hv

/-- C11 fails as stated: every field of the struct of the example is a string
and the command line is not parsed, yet with `null`, an array or an object under
a key of the document `Load` returns the unknown-type error. -/
theorem Load_error_only_counterexample :
    freshFlags.parsed = false
    ∧ (∀ s ∈ mailgunArgs, s.field.kind.supported = true)
    ∧ (Load goLibDocs (worldFile docNull) freshFlags mailgunArgs "~/.mailgun.json").1
      = .error (.unknownValue .null)
    ∧ (Load goLibDocs (worldFile docArray) freshFlags mailgunArgs "~/.mailgun.json").1
      = .error (.unknownValue .array)
    ∧ (Load goLibDocs (worldFile docObject) freshFlags mailgunArgs "~/.mailgun.json").1
      = .error (.unknownValue .object) := by
  decide

/-- C12 at a failing input.  A string field meets a boolean or a number under
its json-tag name: `SetBool` and `SetFloat` panic on a field of kind string, so
`loadFile` neither returns nor goes on to the remaining fields. -/
theorem loadFile_incompatible_scalar_panics :
    (∀ (L : Lib) (s : Slot) (m : SetMap) (c : String) (b : Bool), s.field.kind = .string →
      fileAssign L s m c (.bool b) = (.panic, m, s))
    ∧ (∀ (L : Lib) (s : Slot) (m : SetMap) (c : String) (x : Float64), s.field.kind = .string →
      fileAssign L s m c (.float64 x) = (.panic, m, s))
    ∧ goLib.unmarshal docDebug = some [("debug", .bool true)]
    ∧ loadFile goLib (worldFile docDebug) textArgs [] "~/.mailgun.json"
      = (.panic, [], textArgs, ["/home/u/.mailgun.json"])
    ∧ goLib.unmarshal docPort = some [("port", .float64 ⟨0x40BF900000000000⟩)]
    ∧ loadFile goLib (worldFile docPort) textArgs [] "~/.mailgun.json"
      = (.panic, [], textArgs, ["/home/u/.mailgun.json"]) := by
  refine ⟨fun L s m c b h => ?_, fun L s m c x h => ?_, ?_⟩
  · simp [fileAssign, stored, Slot.SetBool, h]
  · simp [fileAssign, stored, Slot.SetFloat, h]
  · decide

/-- C13, as amended.  With the command line not yet parsed and a struct whose
first field of an unsupported kind without the discard marker is `s`, `Load`
returns the unknown-type error for `s`, or panics while defining the flag of an
earlier field; either way the command line is still unparsed and no file is
read.  It returns the error when the names of the flags of the earlier fields
are accepted, not yet defined and pairwise different; the struct is then as it
was on entry, except that the earlier fields of the seven kinds hold their zero
value. -/
theorem Load_unsupported (L : Lib) (W : World) (G : FlagSet) (pre post : List Slot) (s : Slot)
    (filePath : String)
    (hG : G.parsed = false)
    (hpre : ∀ a ∈ pre, a.field.kind.supported = true ∨ a.field.tag.aef = "-")
    (hk : s.field.kind.supported = false) (haef : s.field.tag.aef ≠ "-") :
    ((Load L W G (pre ++ s :: post) filePath).1 = .error (.unknownType s.field.kind)
      ∨ (Load L W G (pre ++ s :: post) filePath).1 = .panic)
    ∧ (Load L W G (pre ++ s :: post) filePath).2.1.parsed = false
    ∧ (Load L W G (pre ++ s :: post) filePath).2.2.2 = []
    ∧ ((Load L W G (pre ++ s :: post) filePath).1 = .error (.unknownType s.field.kind) →
        (Load L W G (pre ++ s :: post) filePath).2.2.1 = pre.map Slot.reset ++ s :: post
        ∧ ((∀ a ∈ pre, a.val = a.field.kind.zero) →
          (Load L W G (pre ++ s :: post) filePath).2.2.1 = pre ++ s :: post))
    ∧ ((∀ n ∈ flagNames L pre, L.flagNameOk n = true ∧ n ∉ G.formal.map Flag.name) →
        (flagNames L pre).Nodup →
        (Load L W G (pre ++ s :: post) filePath).1 = .error (.unknownType s.field.kind)) := by
  have hloop : forEachField (registerField L) 0 (pre ++ s :: post) G
      = (if (forEachField (registerField L) 0 pre G).1 = .nil then
          (.error (.unknownType s.field.kind), (forEachField (registerField L) 0 pre G).2.1,
            (forEachField (registerField L) 0 pre G).2.2 ++ s :: post)
        else
          ((forEachField (registerField L) 0 pre G).1, (forEachField (registerField L) 0 pre G).2.1,
            (forEachField (registerField L) 0 pre G).2.2 ++ s :: post)) := by
    rw [forEachField_append]
    split
    · rw [forEachField_cons_stop _ (registerField_unsupported L _ _ s hk haef)
        (fun h => Outcome.noConfusion h)]
    · rfl
  have hpanic : (forEachField (registerField L) 0 pre G).1 = .nil
      ∨ (forEachField (registerField L) 0 pre G).1 = .panic := by
    rcases forEachField_outcome (registerField L) pre 0 G with h | ⟨a, ha, j, G0, h⟩
    · exact Or.inl h
    · rcases registerField_accepted L j G0 a (hpre a ha) with h1 | h1
      · exact Or.inl (h ▸ h1)
      · exact Or.inr (h ▸ h1)
  have hreg : (forEachField (registerField L) 0 (pre ++ s :: post) G).1 ≠ .nil := by
    rw [hloop]
    split
    · exact fun h => Outcome.noConfusion h
    · assumption
  have hcli := loadCommandlineFlags_stop L W G (pre ++ s :: post) [] hG hreg
  have hne : (loadCommandlineFlags L W G (pre ++ s :: post) []).1 ≠ .nil := by
    rw [hcli]
    exact hreg
  rw [Load_of_cli L W G _ filePath hne, hcli]
  simp only
  have hparsed := register_parsed L (pre ++ s :: post) 0 G
  refine ⟨?_, hparsed.trans hG, trivial, fun herr => ?_, fun hnames hnodup => ?_⟩
  · rw [hloop]
    rcases hpanic with h | h
    · rw [if_pos h]; exact Or.inl rfl
    · rw [if_neg (by rw [h]; exact fun h => Outcome.noConfusion h)]; exact Or.inr h
  · have hnil : (forEachField (registerField L) 0 pre G).1 = .nil := by
      rcases hpanic with h | h
      · exact h
      · rw [hloop, if_neg (by rw [h]; exact fun h => Outcome.noConfusion h), h] at herr
        exact Outcome.noConfusion herr
    have hmap := (register_nil L pre 0 G hnil).1
    rw [hloop, if_pos hnil]
    simp only [hmap, true_and]
    intro hzero
    congr 1
    conv_rhs => rw [← List.map_id pre]
    exact List.map_congr_left (fun a ha => reset_of_zero a (hzero a ha))
  · rw [hloop, if_pos (register_accepted L pre 0 G hpre hnames hnodup)]

/-- C13 at the struct of the example followed by a channel: `Load` returns the
unknown-type error, the command line is unparsed and the struct, empty on
entry, is unchanged. -/
theorem Load_unsupported_witness :
    (Load goLib worldMissing freshFlags mailgunWithChan "~/.mailgun.json").1
      = .error (.unknownType .other)
    ∧ (Load goLib worldMissing freshFlags mailgunWithChan "~/.mailgun.json").2.1.parsed = false
    ∧ (Load goLib worldMissing freshFlags mailgunWithChan "~/.mailgun.json").2.2.1
      = mailgunWithChan := by
  have h := Load_unsupported goLib worldMissing freshFlags mailgunArgs []
    ⟨⟨"Done", ⟨"", "", ""⟩, .other, true⟩, .other 0⟩ "~/.mailgun.json" (by decide) (by decide)
    (by decide) (by decide)
  have herr := h.2.2.2.2 (by decide) (by decide)
  exact ⟨herr, h.2.1, (h.2.2.2.1 herr).2 (by decide)⟩

/-- C13 fails as stated: `Name` holds `x` on entry and the next field is a
channel without the discard marker; `Load` returns the unknown-type error with
the command line unparsed, and `Name` holds the empty string. -/
theorem Load_unsupported_counterexample :
    namedChan.map Slot.val = [.str "x", .other 7]
    ∧ (Load goLib worldMissing freshFlags namedChan "~/.mailgun.json").1
      = .error (.unknownType .other)
    ∧ (Load goLib worldMissing freshFlags namedChan "~/.mailgun.json").2.1.parsed = false
    ∧ (Load goLib worldMissing freshFlags namedChan "~/.mailgun.json").2.2.1.map Slot.val
      = [.str "", .other 7] := by
  decide

/-- C14, as amended.  When the first call of `Load` got through its
command-line layer, in particular when it returned `nil`, the command line is
parsed, and a second call, on any struct, in any environment and with any path,
returns `ErrFlagAlreadyParsed` and changes neither its struct nor the flags. -/
theorem Load_second_call (L : Lib) (W W2 : World) (G G2 : FlagSet) (ss ss2 : List Slot)
    (filePath filePath2 : String)
    (hfirst : (Load L W G ss filePath).1 = .nil ∨ (loadCommandlineFlags L W G ss []).1 = .nil)
    (hG2 : G2.parsed = (Load L W G ss filePath).2.1.parsed) :
    (Load L W G ss filePath).2.1.parsed = true
    ∧ Load L W2 G2 ss2 filePath2 = (.error .ErrFlagAlreadyParsed, G2, ss2, []) := by
  have hcli : (loadCommandlineFlags L W G ss []).1 = .nil := by
    rcases hfirst with h | h
    · by_contra hne
      rw [Load_of_cli L W G ss filePath hne] at h
      exact hne h
    · exact h
  have hparsed : (Load L W G ss filePath).2.1.parsed = true := by
    rw [Load_flags]
    rcases hr : loadCommandlineFlags L W G ss [] with ⟨o, G1, ss1, m1⟩
    rw [hr] at hcli
    simp only at hcli
    subst hcli
    exact (loadCommandlineFlags_nil L W G G1 ss ss1 [] m1 hr).2.1
  exact ⟨hparsed, Load_parsed L W2 G2 ss2 filePath2 (hG2.trans hparsed)⟩

/-- C14 at the struct of the example: the first call returns `nil`, the second
returns `ErrFlagAlreadyParsed` and leaves its struct alone. -/
theorem Load_second_call_witness :
    (Load goLib worldMissing freshFlags mailgunArgs "~/.mailgun.json").1 = .nil
    ∧ Load goLib worldEnv
        (Load goLib worldMissing freshFlags mailgunArgs "~/.mailgun.json").2.1 mailgunSet ""
      = (.error .ErrFlagAlreadyParsed,
          (Load goLib worldMissing freshFlags mailgunArgs "~/.mailgun.json").2.1, mailgunSet, []) :=
  ⟨by decide,
    (Load_second_call goLib worldMissing worldEnv freshFlags _ mailgunArgs mailgunSet
      "~/.mailgun.json" "" (Or.inl (by decide)) rfl).2⟩

/-- C14 fails as stated: the first call, on a struct with a channel, returns
the unknown-type error before the command line is parsed; the second call, on
the struct of the example, returns `nil`. -/
theorem Load_second_call_counterexample :
    freshFlags.parsed = false
    ∧ (Load goLib worldMissing freshFlags chanOnly "~/.mailgun.json").1
      = .error (.unknownType .other)
    ∧ (Load goLib worldMissing freshFlags chanOnly "~/.mailgun.json").2.1 = freshFlags
    ∧ (Load goLib worldMissing
        (Load goLib worldMissing freshFlags chanOnly "~/.mailgun.json").2.1
        mailgunArgs "~/.mailgun.json").1 = .nil := by
  decide

/-- C15 at a failing input.  The resolved set holds the canonical name of every
field of the example and the name `verbose` besides, as it does after a command
line that sets the four flags and a flag of another package: `loadFile` reads
the file and replaces the value of `APIKey` by the one under `api_key`. -/
theorem loadFile_reads_when_all_set :
    (∀ s ∈ mailgunSet, s.flagName goLib
      ∈ (["domain", "api-key", "public-key", "tpl-file", "verbose"] : SetMap))
    ∧ loadFile goLib (worldFile docApiKey) mailgunSet
        ["domain", "api-key", "public-key", "tpl-file", "verbose"] "~/.mailgun.json"
      = (.nil, ["api_key", "domain", "api-key", "public-key", "tpl-file", "verbose"],
          [⟨⟨"Domain", ⟨"domain", "domain", "mailgun domain"⟩, .string, true⟩, .str "a"⟩,
           ⟨⟨"APIKey", ⟨"api-key", "api_key", ""⟩, .string, true⟩, .str "from-file"⟩,
           ⟨⟨"PublicKey", ⟨"public-key", "public_key", ""⟩, .string, true⟩, .str "c"⟩,
           ⟨⟨"TplFile", ⟨"tpl-file", "tpl_file", ""⟩, .string, true⟩, .str "d"⟩],
          ["/home/u/.mailgun.json"])
    ∧ (loadCommandlineFlags goLib worldAllSet verboseFlags mailgunArgs []).2.2
      = (mailgunSet, ["domain", "api-key", "public-key", "tpl-file", "verbose"])
    ∧ (Load goLib worldAllSet verboseFlags mailgunArgs "~/.mailgun.json").2.2.1.map Slot.val
      = [.str "a", .str "from-file", .str "c", .str "d"] := by
  decide

/-- C16.  `loadEnviron` removes no key from the resolved set and leaves alone
every field whose canonical name is in the set on entry; when the canonical
name of every field is in the set, it returns `nil` and leaves the struct and
the set unchanged. -/
theorem loadEnviron_resolved_frame (L : Lib) (getenv : String → String) (ss : List Slot)
    (setMap : SetMap) :
    setMap ⊆ (loadEnviron L getenv ss setMap).2.1
    ∧ (∀ (i : Nat) (s : Slot), ss[i]? = some s → s.flagName L ∈ setMap →
        (loadEnviron L getenv ss setMap).2.2[i]? = some s)
    ∧ ((∀ s ∈ ss, s.flagName L ∈ setMap) →
        loadEnviron L getenv ss setMap = (.nil, setMap, ss)) := by
  refine ⟨?_, fun i s hi hs => ?_, fun hall => ?_⟩
  · unfold loadEnviron
    split
    · exact fun _ h => h
    · exact loadEnviron_subset L getenv ss 0 setMap
  · unfold loadEnviron
    split
    · exact hi
    · have hrel := (forEachField_rel (loadEnvironField L getenv) (fun st => setMap ⊆ st)
        (fun a b => a.flagName L ∈ setMap → b = a) (fun _ _ => rfl) ss
        (fun a _ j st hst => ⟨fun _ hx => (loadEnvironField_frame L getenv j st a).2.1 (hst hx),
          fun ha => by rw [loadEnvironField_eq, if_pos (hst ha)]⟩) 0 setMap (fun _ h => h)).2
      obtain ⟨y, hy, hsy⟩ := forall₂_getElem? hrel i s hi
      rw [hy, hsy hs]
  · unfold loadEnviron
    split
    · rfl
    · exact forEachField_id _ ss setMap
        (fun s hs i => by rw [loadEnvironField_eq, if_pos (hall s hs)]) 0

/-- C17 at a failing input.  `Done` is a channel and `Ratio` a float32, both with
the discard marker.  With a string under `done` in the file, `SetString` panics
on the channel and `Load` does not return; with a number under `ratio`, `Load`
returns `nil` and `Ratio` holds the number of the file. -/
theorem Load_discard_marker_not_skipped :
    discardArgs.map (fun s => (s.field.kind.supported, s.field.tag.aef, s.val))
      = [(true, "", .str ""), (false, "-", .other 7), (false, "-", .float ⟨0⟩)]
    ∧ goLibDocs.unmarshal docDone = some [("done", .string "x")]
    ∧ (Load goLibDocs (worldFile docDone) freshFlags discardArgs "~/.mailgun.json").1 = .panic
    ∧ goLibDocs.unmarshal docRatio = some [("ratio", .float64 ⟨0x3FF8000000000000⟩)]
    ∧ (Load goLibDocs (worldFile docRatio) freshFlags discardArgs "~/.mailgun.json").1 = .nil
    ∧ (Load goLibDocs (worldFile docRatio) freshFlags discardArgs
        "~/.mailgun.json").2.2.1.map Slot.val
      = [.str "", .other 7, .float ⟨0x3FF8000000000000⟩] := by
  decide

/-- C18 at a failing input.  `json.Unmarshal` stores a number as a float64, never
as one of the integer types of the type switch, and `SetFloat` panics on a
field of kind int, int64, uint or uint64: with `"port": 8080` in the file,
`loadFile` panics on the int field `Port`, which keeps 0, and marks no key. -/
theorem loadFile_integer_field_panics :
    (∀ (i : Int) (n : Nat), (Iface.int i).fromJSON = false ∧ (Iface.int64 i).fromJSON = false
      ∧ (Iface.uint n).fromJSON = false ∧ (Iface.uint64 n).fromJSON = false)
    ∧ (∀ (L : Lib) (s : Slot) (m : SetMap) (c : String) (x : Float64),
      s.field.kind ∈ [Kind.int, .int64, .uint, .uint64] →
      fileAssign L s m c (.float64 x) = (.panic, m, s))
    ∧ goLib.unmarshal docPort = some [("port", .float64 ⟨0x40BF900000000000⟩)]
    ∧ loadFile goLib (worldFile docPort) portArgs [] "~/.mailgun.json"
      = (.panic, [], portArgs, ["/home/u/.mailgun.json"]) := by
  refine ⟨fun i n => ⟨rfl, rfl, rfl, rfl⟩, fun L s m c x h => ?_, ?_⟩
  · simp only [List.mem_cons, List.mem_singleton, List.not_mem_nil, or_false] at h
    rcases h with h | h | h | h <;> simp [fileAssign, stored, Slot.SetFloat, h]
  · decide

/-- C19.  `loadEnviron` and `loadFile` stop as soon as the resolved set has as
many keys as the struct has fields, whatever the keys are.  So for the struct
with the fields `Debug` and `Name`, the set of the two keys `verbose` and `name`
and the environment `DEBUG=true`: the set has as many keys as the struct has
fields, it does not hold `debug`, the variable holds a text `strconv.ParseBool`
accepts, and `loadEnviron` returns `nil` leaving `Debug` at `false`; with the one
key `verbose` in the set it sets `Debug` to `true`. -/
theorem shortcut_compares_counts :
    (∀ (L : Lib) (getenv : String → String) (ss : List Slot) (setMap : SetMap),
      setMap.length = ss.length → loadEnviron L getenv ss setMap = (.nil, setMap, ss))
    ∧ (∀ (L : Lib) (W : World) (ss : List Slot) (setMap : SetMap) (filePath : String),
      setMap.length = ss.length → loadFile L W ss setMap filePath = (.nil, setMap, ss, []))
    ∧ (["verbose", "name"] : SetMap).length = debugZero.length
    ∧ debugZero[0]? = some ⟨⟨"Debug", ⟨"", "debug", ""⟩, .bool, true⟩, .bool false⟩
    ∧ (⟨⟨"Debug", ⟨"", "debug", ""⟩, .bool, true⟩, .bool false⟩ : Slot).flagName goLib = "debug"
    ∧ "debug" ∉ (["verbose", "name"] : SetMap)
    ∧ envLookup goLib (environ [("DEBUG", "true")]) (replaceDash "debug") = "true"
    ∧ coerce goLib .bool "true" = some (.bool true)
    ∧ loadEnviron goLib (environ [("DEBUG", "true")]) debugZero ["verbose", "name"]
      = (.nil, ["verbose", "name"], debugZero)
    ∧ (loadEnviron goLib (environ [("DEBUG", "true")]) debugZero ["verbose"]).2.2.map Slot.val
      = [.bool true, .str ""] := by
  refine ⟨fun L getenv ss setMap h => ?_, fun L W ss setMap filePath h => ?_, ?_⟩
  · unfold loadEnviron
    rw [if_pos h]
  · exact loadFile_skip L W ss setMap filePath (Or.inr h)
  · decide

end Aef
